import Mathlib

/-!
# telegram-support-topic-bot: mailbox poller, body extractor, thread reconciler

A shallow embedding of the Go sources `email/monitor.go`, `email/init.go`,
`database/topics.go`, `topic.go` and `main.go`.

Conventions of the embedding

* A Go `string` is a Lean `String`; `len(s)` and the byte slice `s[:n]` are taken on the
  UTF-8 bytes of the string (`goBytes`).
* A Go `uint32` is a `Nat` below `uint32Size`; arithmetic on it is reduced modulo `uint32Size`.
* A Go `error` is a `String` (its message); `(T, error)` results are `Except String T`.
* External collaborators (IMAP server, SQL database, chat platform) are not part of the
  repository. Their answers are inputs of the model: a `Mailbox` per tick for the IMAP
  server, a `World` per inbound message for the database faults and the chat platform.
* What the code does to the outside world is recorded as a list of actions or effects;
  `log.Printf` and `fmt.Println` lines are not recorded.
* A call that may never return has an `Outcome`: the value returned, or `hangs`. The only
  loop of the program without a bound is the part loop of `GetMessageBody`, which takes
  `continue` on every error of the part reader other than `io.EOF`.
-/

namespace TopicBot

deriving instance DecidableEq for Except

/-- Result of a call that may never return: the value it returns, or `hangs` when control
never leaves the call. -/
inductive Outcome (α : Type) where
  | returns (value : α)
  | hangs
  deriving DecidableEq, Repr

/-! ## Messages (`go-imap`, `go-message`) -/

namespace imap

/-- Sender entry of an envelope (`imap.Address`). -/
structure Address where
  PersonalName : String
  MailboxName : String
  HostName : String
  deriving DecidableEq, Repr

/-- The fields of `imap.Envelope` the program reads. -/
structure Envelope where
  Subject : String
  From : List Address
  MessageId : String
  deriving DecidableEq, Repr

end imap

namespace mail

/-- Dynamic type of `p.Header` of a part returned by `mr.NextPart()`; the content type is the
first result of `h.ContentType()`. -/
inductive PartHeader where
  | InlineHeader (contentType : String)
  | AttachmentHeader (contentType : String)
  | other
  deriving DecidableEq, Repr

/-- A part of a message: its header and what `io.ReadAll(p.Body)` gives. -/
structure Part where
  Header : PartHeader
  Body : Except String String
  deriving DecidableEq

/-- What `mr.NextPart()` does once the listed results have been returned. -/
inductive ReaderEnd where
  /-- The next call returns `io.EOF`. -/
  | eof
  /-- Every further call returns an error other than `io.EOF`, as the reader of a multipart
  body that is cut before its closing boundary does. -/
  | stuck
  deriving DecidableEq, Repr

end mail

namespace imap

/-- What the body section of a fetched message holds, in the order `GetMessageBody` looks at it. -/
inductive BodyData where
  /-- Go `msg.Body == nil` -/
  | absent
  /-- Go `msg.GetBody(section) == nil` -/
  | noSection
  /-- Go `mail.CreateReader(r)` fails with the given error -/
  | unreadable (err : String)
  /-- The successive results of `mr.NextPart()` (a part, or an error other than `io.EOF`),
  and what the reader does after them: it returns `io.EOF`, or it never does. -/
  | parts (ps : List (Except String mail.Part)) (tail : mail.ReaderEnd)
  deriving DecidableEq

/-- The fields of `imap.Message` the program reads. -/
structure Message where
  SeqNum : Nat
  Envelope : Option Envelope
  Body : BodyData
  deriving DecidableEq

end imap

/-! ## `email/monitor.go` -/

namespace email

/-- Number of values of a Go `uint32`. -/
def uint32Size : Nat := 4294967296

/-- The IMAP server as one tick sees it: the answer of `client.Select("INBOX", false)` (the
field `Messages` of the status, or an error) and the answer of `client.Fetch` for a sequence
range. -/
structure Mailbox where
  Select : Except String Nat
  Fetch : Nat → Nat → Except String (List imap.Message)

/-- The fields of `EmailMonitor` that the poller reads and writes: `callback` is `true` when
`em.callback != nil`. -/
structure EmailMonitor where
  lastCount : Nat
  callback : Bool
  running : Bool
  deriving DecidableEq, Repr

/-- What a tick does to the outside: a mailbox selection, a fetch of a sequence range, the
dispatch `go em.callback(msg)`. -/
inductive Action where
  | select
  | fetch (start stop : Nat)
  | callback (msg : imap.Message)
  deriving DecidableEq

/-- Go `IMAPClient.SelectMailbox("INBOX")`: the message count of the selected mailbox. -/
def SelectMailbox (mb : Mailbox) : Except String Nat :=
  match mb.Select with
  | .error err => .error ("failed to select mailbox INBOX: " ++ err)
  | .ok messages => .ok messages

/-- Go `EmailMonitor.fetchNewMessages(from, to)`. -/
def fetchNewMessages (mb : Mailbox) (start stop : Nat) : Except String (List imap.Message) :=
  match mb.Fetch start stop with
  | .error err => .error ("failed to fetch new messages: " ++ err)
  | .ok result => .ok result

/-- Go `NewEmailMonitor`: cursor zero, not running. -/
def NewEmailMonitor (callback : Bool) : EmailMonitor :=
  { lastCount := 0, callback := callback, running := false }

/-- Go `EmailMonitor.Start` up to the launch of the loop. -/
def Start (em : EmailMonitor) (mb : Mailbox) : Except String EmailMonitor :=
  if em.running then .error "monitor is already running"
  else
    match SelectMailbox mb with
    | .error err => .error ("failed to select mailbox: " ++ err)
    | .ok messages => .ok { em with running := true, lastCount := messages }

/-- Go `EmailMonitor.checkForNewEmails`: one tick. Returns the monitor after the tick and the
actions of the tick in program order. -/
def checkForNewEmails (em : EmailMonitor) (mb : Mailbox) : EmailMonitor × List Action :=
  match SelectMailbox mb with
  | .error _ => (em, [Action.select])
  | .ok currentCount =>
    if currentCount > em.lastCount then
      let start := (em.lastCount + 1) % uint32Size
      match fetchNewMessages mb start currentCount with
      | .error _ => (em, [Action.select, Action.fetch start currentCount])
      | .ok newMessages =>
        ({ em with lastCount := currentCount },
          [Action.select, Action.fetch start currentCount] ++
            newMessages.flatMap (fun msg => if em.callback then [Action.callback msg] else []))
    else (em, [Action.select])

/-- Go `EmailMonitor.monitorLoop` over the ticks that fire before the stop signal: the final
monitor and all actions in order. -/
def monitorLoop (em : EmailMonitor) : List Mailbox → EmailMonitor × List Action
  | [] => (em, [])
  | mb :: rest =>
    let r := checkForNewEmails em mb
    let s := monitorLoop r.1 rest
    (s.1, r.2 ++ s.2)

/-- Sequence numbers of the messages passed to the callback, in dispatch order. -/
def delivered (as : List Action) : List Nat :=
  as.filterMap (fun a => match a with
    | Action.callback msg => some msg.SeqNum
    | _ => none)

/-- Sequence ranges requested from the server. -/
def fetched (as : List Action) : List (Nat × Nat) :=
  as.filterMap (fun a => match a with
    | Action.fetch start stop => some (start, stop)
    | _ => none)

/-- A mailbox observation of the kind the poller contract assumes: the count read succeeds
with a `uint32`, and a fetch of `start..stop` never fails and returns exactly the messages
numbered `start, ..., stop`. -/
def Mailbox.Faithful (mb : Mailbox) : Prop :=
  (∃ c, mb.Select = .ok c ∧ c < uint32Size) ∧
  ∀ start stop, 1 ≤ start → start ≤ stop →
    ∃ msgs, mb.Fetch start stop = .ok msgs ∧
      msgs.map (fun m => m.SeqNum) = List.range' start (stop + 1 - start)

/-- A message that carries only its sequence number. -/
def bareMessage (n : Nat) : imap.Message :=
  { SeqNum := n, Envelope := none, Body := imap.BodyData.absent }

/-- A faithful mailbox holding `count` bare messages. -/
def bareMailbox (count : Nat) : Mailbox :=
  { Select := .ok count
    Fetch := fun start stop => .ok ((List.range' start (stop + 1 - start)).map bareMessage) }


/-! ## `email/init.go` -/

/-- The loop `for { p, err := mr.NextPart(); ... }` of `GetMessageBody` over the results of
`mr.NextPart()`, with the current value of `htmlBody`. After the last listed result the
reader returns `io.EOF` and the code leaves the loop and looks at `htmlBody`, or it returns
a non-EOF error on every call, the code takes `continue` every time and the loop never
ends. -/
def GetMessageBody.loop : List (Except String mail.Part) → mail.ReaderEnd → String →
    Outcome (Except String String)
  | [], mail.ReaderEnd.eof, htmlBody =>
    if htmlBody ≠ "" then .returns (.ok htmlBody)
    else .returns (.error "no readable body found")
  | [], mail.ReaderEnd.stuck, _ => .hangs
  | .error _ :: rest, tail, htmlBody => GetMessageBody.loop rest tail htmlBody
  | .ok p :: rest, tail, htmlBody =>
    match p.Header with
    | mail.PartHeader.InlineHeader contentType =>
      match p.Body with
      | .error _ => GetMessageBody.loop rest tail htmlBody
      | .ok b =>
        if contentType = "text/plain" then .returns (.ok b)
        else if contentType = "text/html" then GetMessageBody.loop rest tail b
        else GetMessageBody.loop rest tail htmlBody
    | mail.PartHeader.AttachmentHeader _ => GetMessageBody.loop rest tail htmlBody
    | mail.PartHeader.other => GetMessageBody.loop rest tail htmlBody

/-- Go `IMAPClient.GetMessageBody`. -/
def GetMessageBody (msg : imap.Message) : Outcome (Except String String) :=
  match msg.Body with
  | imap.BodyData.absent => .returns (.error "message body is nil")
  | imap.BodyData.noSection => .returns (.error "message body reader is nil")
  | imap.BodyData.unreadable err => .returns (.error err)
  | imap.BodyData.parts ps tail => GetMessageBody.loop ps tail ""

/-- The UTF-8 bytes of a Go string. -/
def goBytes (s : String) : List UInt8 :=
  s.data.flatMap String.utf8EncodeChar

/-- Go `SMTPClient.buildReplySubject`; `len` and `[:3]` are on bytes. -/
def buildReplySubject (originalSubject : String) : String :=
  if originalSubject = "" then "Re: "
  else if (goBytes originalSubject).length ≥ 3 ∧
      (goBytes originalSubject).take 3 = goBytes "Re:" then originalSubject
  else "Re: " ++ originalSubject

/-- The fields of `EmailConfig` that end up in an outbound mail. -/
structure EmailConfig where
  Username : String
  deriving DecidableEq, Repr

/-- An outbound mail handed to the SMTP server: the recipient and the message text. -/
structure OutboundMail where
  recipient : String
  data : String
  deriving DecidableEq, Repr

/-- Go `SMTPClient.ReplyToEmail`: the mail it submits (by `sendWithTLS` or `smtp.SendMail`). -/
def ReplyToEmail (config : EmailConfig) (messageId replyTo replySubject replyBody : String) :
    OutboundMail :=
  { recipient := replyTo
    data := "From: " ++ config.Username ++ "\r\nTo: " ++ replyTo ++ "\r\nSubject: " ++
      replySubject ++ "\r\nIn-Reply-To: " ++ messageId ++ "\r\nReferences: " ++ messageId ++
      "\r\nContent-Type: text/plain; charset=UTF-8\r\n\r\n" ++ replyBody }

/-- Go `SMTPClient.ReplyEmail`. -/
def ReplyEmail (config : EmailConfig) (replyTo subject messageId replyBody : String) :
    OutboundMail :=
  let replySubject := buildReplySubject subject
  ReplyToEmail config messageId replyTo replySubject replyBody

end email

/-! ## `database/topics.go` -/

namespace database

/-- Go `type TopicType string`. -/
abbrev TopicType := String

def TopicTypeEmail : TopicType := "email"
def TopicTypeAccount : TopicType := "account"
def TopicTypeTelegram : TopicType := "telegram"

/-- A row of the table `topics`; `Subject` and `MessageID` are nullable (`*string`). -/
structure Topic where
  ID : String
  /-- Column `type` (Go field `Type`). -/
  Typ : TopicType
  Target : String
  TopicID : Int
  Subject : Option String
  MessageID : Option String
  CreatedAt : Int
  deriving DecidableEq, Repr

/-- Errors of a database call: `sql.ErrNoRows`, or a failure of the driver. -/
inductive Error where
  | ErrNoRows
  | driver (msg : String)
  deriving DecidableEq, Repr

/-- Go `err.Error()`. -/
def Error.message : Error → String
  | Error.ErrNoRows => "sql: no rows in result set"
  | Error.driver msg => msg

/-- Go `DB.Get(&topic, "SELECT * FROM topics WHERE ... LIMIT 1")`: the first row of the table
(rows in list order) that satisfies the condition, `sql.ErrNoRows` when there is none.
`fault` is a failure of the driver for this call, if any. Columns are compared as Go
compares strings and integers; the collation of the database is not modelled. -/
def Get (db : List Topic) (fault : Option String) (cond : Topic → Bool) : Except Error Topic :=
  match fault with
  | some err => .error (Error.driver err)
  | none =>
    match db.find? cond with
    | none => .error Error.ErrNoRows
    | some topic => .ok topic

/-- Go `GetTopicByTypeTarget`. -/
def GetTopicByTypeTarget (db : List Topic) (fault : Option String) (typ : TopicType)
    (target : String) : Except Error Topic :=
  Get db fault (fun t => t.Typ == typ && t.Target == target)

/-- Go `GetTopicByTopicID`. -/
def GetTopicByTopicID (db : List Topic) (fault : Option String) (topicID : Int) :
    Except Error Topic :=
  Get db fault (fun t => t.TopicID == topicID)

/-- Go `CreateTopic`: `INSERT INTO topics (type, target, topic_id, subject, message_id,
created_at)`. The key `id` given by the database and `time.Now().Unix()` are inputs. Returns
the table after the call and the error, if any. -/
def CreateTopic (db : List Topic) (fault : Option String) (id : String) (now : Int)
    (topic : Topic) : List Topic × Option Error :=
  match fault with
  | some err => (db, some (Error.driver err))
  | none =>
    (db ++ [{ ID := id, Typ := topic.Typ, Target := topic.Target, TopicID := topic.TopicID,
              Subject := topic.Subject, MessageID := topic.MessageID, CreatedAt := now }], none)

/-- What `UPDATE topics SET subject = ?, message_id = ? WHERE topic_id = ?` does to one
row. -/
def refreshRow (topicID : Int) (subject messageID : String) (t : Topic) : Topic :=
  if t.TopicID = topicID then
    { t with Subject := some subject, MessageID := some messageID }
  else t

/-- Go `UpdateTopicSubjectMessageID`: the statement `UPDATE topics SET subject = ?,
message_id = ? WHERE topic_id = ?` applied to the table. -/
def UpdateTopicSubjectMessageID (db : List Topic) (fault : Option String) (topicID : Int)
    (subject messageID : String) : List Topic × Option Error :=
  match fault with
  | some err => (db, some (Error.driver err))
  | none => (db.map (refreshRow topicID subject messageID), none)

end database

/-! ## Go standard library: `strings` -/

namespace strings

/-- Go `unicode.IsSpace`. -/
def IsSpace (c : Char) : Bool :=
  c = '\t' || c = '\n' || c = Char.ofNat 0x0B || c = Char.ofNat 0x0C || c = '\r' || c = ' ' ||
  c = Char.ofNat 0x85 || c = Char.ofNat 0xA0 || c = Char.ofNat 0x1680 ||
  (0x2000 ≤ c.toNat && c.toNat ≤ 0x200A) || c = Char.ofNat 0x2028 || c = Char.ofNat 0x2029 ||
  c = Char.ofNat 0x202F || c = Char.ofNat 0x205F || c = Char.ofNat 0x3000

/-- Go `strings.TrimSpace`. -/
def TrimSpace (s : String) : String :=
  ⟨((s.data.dropWhile IsSpace).reverse.dropWhile IsSpace).reverse⟩

/-- The characters before the first occurrence of `"> "`, all of them when there is none. -/
def beforeQuote : List Char → List Char
  | [] => []
  | '>' :: ' ' :: _ => []
  | c :: cs => c :: beforeQuote cs

/-- Go `strings.Split(s, "> ")[0]`. -/
def SplitQuoteHead (s : String) : String :=
  ⟨beforeQuote s.data⟩

end strings

/-! ## Chat platform (`go-telegram/bot`) -/

namespace models

/-- The fields of `models.User` the program reads. -/
structure User where
  FirstName : String
  LastName : String
  IsBot : Bool
  deriving DecidableEq, Repr

/-- The fields of `models.Message` the program reads; `ChatID` is `Chat.ID`, `From` is a
pointer. -/
structure Message where
  ChatID : Int
  IsTopicMessage : Bool
  MessageThreadID : Int
  From : Option User
  Text : String
  deriving DecidableEq, Repr

/-- Go `models.Update`; `Message` is a pointer. -/
structure Update where
  Message : Option Message
  deriving DecidableEq, Repr

end models

/-! ## `main.go`, `topic.go` -/

namespace main

/-- The fields of `config.Conf` the program reads after start-up. -/
structure Config where
  ChatID : Int
  Email : email.EmailConfig
  deriving DecidableEq, Repr

/-- A call to the chat platform or to the mail sender, with its arguments. -/
inductive Effect where
  | createForumTopic (chatID : Int) (name : String)
  | sendMessage (chatID : Int) (messageThreadID : Int) (text : String)
  | replyEmail (mail : email.OutboundMail)
  deriving DecidableEq, Repr

/-- The answers of the collaborators during one run of `EmailCallback`: driver faults of the
three database calls, the answer of `Bot.CreateForumTopic` (the `MessageThreadID` of the new
topic, or an error), and the key and time stamp the insert would store. -/
structure World where
  getFault : Option String
  CreateForumTopic : Int → String → Except String Int
  insertFault : Option String
  insertID : String
  now : Int
  updateFault : Option String

/-- Result of a handler: the table it leaves, the calls it made, whether it ended in a
nil pointer dereference (which ends the process), and whether it never returns (its
goroutine stays in the loop of `GetMessageBody`; the process goes on). -/
structure Run where
  db : List database.Topic
  effects : List Effect
  panicked : Bool
  hung : Bool
  deriving DecidableEq, Repr

/-- Go `CreateTopic` of `topic.go`; an error stands for `return -1, err`. -/
def CreateTopic (conf : Config) (w : World) (db : List database.Topic)
    (typ : database.TopicType) (target name : String) (subject messageId : Option String) :
    List database.Topic × List Effect × Except String Int :=
  match w.CreateForumTopic conf.ChatID name with
  | .error err => (db, [Effect.createForumTopic conf.ChatID name], .error err)
  | .ok messageThreadID =>
    match database.CreateTopic db w.insertFault w.insertID w.now
        { ID := "", Typ := typ, Target := target, TopicID := messageThreadID,
          Subject := subject, MessageID := messageId, CreatedAt := 0 } with
    | (db1, some err) => (db1, [Effect.createForumTopic conf.ChatID name], .error err.message)
    | (db1, none) => (db1, [Effect.createForumTopic conf.ChatID name], .ok messageThreadID)

/-- Lines 71-83 of `EmailCallback`: `(name, address)` of the first sender, both empty when
the envelope has no sender. -/
def EmailCallback.sender (envelope : imap.Envelope) : String × String :=
  match envelope.From with
  | [] => ("", "")
  | sender :: _ =>
    if sender.PersonalName ≠ "" then
      (sender.PersonalName, sender.MailboxName ++ "@" ++ sender.HostName)
    else
      (sender.MailboxName, sender.MailboxName ++ "@" ++ sender.HostName)

/-- Outcome of the lookup-then-create step: the table, the calls made, and the resolved
`topicId` (`none` when `EmailCallback` returns early). -/
structure Resolved where
  db : List database.Topic
  effects : List Effect
  topicId : Option Int
  deriving DecidableEq, Repr

/-- Lines 84-106 of `EmailCallback` (the spec's `resolveOrCreate`): look the thread of
`(email, address)` up and create it on `sql.ErrNoRows`. -/
def resolveOrCreate (conf : Config) (w : World) (db : List database.Topic)
    (envelope : imap.Envelope) (name address : String) : Resolved :=
  match database.GetTopicByTypeTarget db w.getFault database.TopicTypeEmail address with
  | .error database.Error.ErrNoRows =>
    match CreateTopic conf w db database.TopicTypeEmail address
        (name ++ " (" ++ address ++ ")") (some envelope.Subject) (some envelope.MessageId) with
    | (db1, effects, .error _) => { db := db1, effects := effects, topicId := none }
    | (db1, effects, .ok topicId) => { db := db1, effects := effects, topicId := some topicId }
  | .error (database.Error.driver _) => { db := db, effects := [], topicId := none }
  | .ok topic => { db := db, effects := [], topicId := some topic.TopicID }

/-- Go `EmailCallback`. -/
def EmailCallback (conf : Config) (w : World) (db : List database.Topic)
    (msg : imap.Message) : Run :=
  match msg.Envelope with
  | none => { db := db, effects := [], panicked := true, hung := false }
  | some envelope =>
    let name := (EmailCallback.sender envelope).1
    let address := (EmailCallback.sender envelope).2
    let r := resolveOrCreate conf w db envelope name address
    match r.topicId with
    | none => { db := r.db, effects := r.effects, panicked := false, hung := false }
    | some topicId =>
      match database.UpdateTopicSubjectMessageID r.db w.updateFault topicId
          envelope.Subject envelope.MessageId with
      | (db2, some _) => { db := db2, effects := r.effects, panicked := false, hung := false }
      | (db2, none) =>
        match email.GetMessageBody msg with
        | .hangs => { db := db2, effects := r.effects, panicked := false, hung := true }
        | .returns (.error _) =>
          { db := db2, effects := r.effects, panicked := false, hung := false }
        | .returns (.ok body) =>
          { db := db2
            effects := r.effects ++ [Effect.sendMessage conf.ChatID topicId
              (envelope.Subject ++ "\n\n" ++ strings.TrimSpace (strings.SplitQuoteHead body))]
            panicked := false, hung := false }

/-- Inbound messages processed one at a time, each with the answers of the collaborators
during its run. A nil pointer dereference ends the process. A run that never returns has
made its database calls and stays in its own goroutine (`go em.callback(msg)`), so the
next message is processed on the table it left. -/
def processInbound (conf : Config) (db : List database.Topic) :
    List (World × imap.Message) → Run
  | [] => { db := db, effects := [], panicked := false, hung := false }
  | (w, msg) :: rest =>
    let r := EmailCallback conf w db msg
    if r.panicked then r
    else
      let s := processInbound conf r.db rest
      { db := s.db, effects := r.effects ++ s.effects, panicked := s.panicked,
        hung := r.hung || s.hung }

/-- Go `handler`: the default handler of chat updates. `TelegramName` is a function of the
package whose source is not in the repository snapshot; `getFault` is a driver fault of the
lookup. -/
def handler (conf : Config) (TelegramName : String → String → String)
    (db : List database.Topic) (getFault : Option String) (update : models.Update) : Run :=
  match update.Message with
  | none => { db := db, effects := [], panicked := true, hung := false }
  | some message =>
    if message.ChatID = conf.ChatID ∧ message.IsTopicMessage = true then
      match message.From with
      | none => { db := db, effects := [], panicked := true, hung := false }
      | some sender =>
        if sender.IsBot then { db := db, effects := [], panicked := false, hung := false }
        else
          match database.GetTopicByTopicID db getFault message.MessageThreadID with
          | .error _ => { db := db, effects := [], panicked := false, hung := false }
          | .ok topic =>
            if topic.Typ = database.TopicTypeEmail then
              match topic.Subject, topic.MessageID with
              | some subject, some messageID =>
                { db := db
                  effects := [Effect.replyEmail (email.ReplyEmail conf.Email topic.Target
                    subject messageID
                    (message.Text ++ "\n\nSent from " ++
                      TelegramName sender.FirstName sender.LastName))]
                  panicked := false, hung := false }
              | _, _ => { db := db, effects := [], panicked := true, hung := false }
            else { db := db, effects := [], panicked := false, hung := false }
    else { db := db, effects := [], panicked := false, hung := false }

end main

/-! ## Predicates and inputs used in the statements -/

namespace email

/-- A mailbox that reports `count` messages and whose fetch fails. -/
def brokenMailbox (count : Nat) : Mailbox :=
  { Select := .ok count, Fetch := fun _ _ => .error "connection reset" }

/-- A readable inline part with the given content type and content, as `mr.NextPart()`
returns it. -/
def inlinePart (contentType content : String) : Except String mail.Part :=
  .ok { Header := mail.PartHeader.InlineHeader contentType, Body := .ok content }

/-- An attachment with the given content type and content. -/
def attachmentPart (contentType content : String) : Except String mail.Part :=
  .ok { Header := mail.PartHeader.AttachmentHeader contentType, Body := .ok content }

/-- Whether a result of `mr.NextPart()` is an inline part of the given content type whose
body can be read. -/
def isInline (contentType : String) : Except String mail.Part → Bool
  | .ok { Header := mail.PartHeader.InlineHeader t, Body := .ok _ } => t == contentType
  | _ => false

/-- Whether a result of `mr.NextPart()` is an attachment. -/
def isAttachment : Except String mail.Part → Bool
  | .ok { Header := mail.PartHeader.AttachmentHeader _, Body := _ } => true
  | _ => false

/-- A message whose part reader gives the listed results and then behaves as `tail`. -/
def messageOfParts (ps : List (Except String mail.Part)) (tail : mail.ReaderEnd) :
    imap.Message :=
  { SeqNum := 1, Envelope := none, Body := imap.BodyData.parts ps tail }

end email

namespace main

/-- The condition of the lookup of `EmailCallback`: type `email` and the given target. -/
def isThreadOf (address : String) (t : database.Topic) : Bool :=
  t.Typ == database.TopicTypeEmail && t.Target == address

/-- The message has an envelope and `EmailCallback` computes `address` for its sender. -/
def SentFrom (address : String) (msg : imap.Message) : Prop :=
  ∃ envelope, msg.Envelope = some envelope ∧ (EmailCallback.sender envelope).2 = address

/-- All collaborator calls of one run of `EmailCallback` succeed. -/
def World.Succeeds (w : World) : Prop :=
  w.getFault = none ∧ w.insertFault = none ∧ w.updateFault = none ∧
  ∀ chatID name, ∃ handle, w.CreateForumTopic chatID name = .ok handle

/-- Whether an effect is a call of `Bot.CreateForumTopic`. -/
def isCreateForumTopic : Effect → Bool
  | Effect.createForumTopic _ _ => true
  | _ => false

/-- Whether an effect is an outbound mail. -/
def isReplyEmail : Effect → Bool
  | Effect.replyEmail _ => true
  | _ => false

/-- The `topicId` that the lookup-then-create step of `EmailCallback` resolves an inbound
message to, on the given table. -/
def resolvedHandle (conf : Config) (db : List database.Topic) (x : World × imap.Message) :
    Option Int :=
  match x.2.Envelope with
  | none => none
  | some envelope =>
    (resolveOrCreate conf x.1 db envelope (EmailCallback.sender envelope).1
      (EmailCallback.sender envelope).2).topicId

/-- The invariant of the data model: at most one row per `(type, target)`. -/
def KeyUnique (db : List database.Topic) : Prop :=
  db.Pairwise (fun x y => ¬ (x.Typ = y.Typ ∧ x.Target = y.Target))

/-- Row `t1` is row `t` after an operation that kept its key, type, target and handle and
did not unset its subject or message reference. -/
def Preserved (t t1 : database.Topic) : Prop :=
  t1.ID = t.ID ∧ t1.Typ = t.Typ ∧ t1.Target = t.Target ∧ t1.TopicID = t.TopicID ∧
  t1.CreatedAt = t.CreatedAt ∧
  (t.Subject ≠ none → t1.Subject ≠ none) ∧ (t.MessageID ≠ none → t1.MessageID ≠ none)

/-- A world in which every call succeeds and the chat platform answers `handle`. -/
def okWorld (handle : Int) : World :=
  { getFault := none, CreateForumTopic := fun _ _ => .ok handle, insertFault := none,
    insertID := "row", now := 1700000000, updateFault := none }

/-- A world in which the update statement fails. -/
def updateFailsWorld (handle : Int) : World :=
  { getFault := none, CreateForumTopic := fun _ _ => .ok handle, insertFault := none,
    insertID := "row", now := 1700000000, updateFault := some "connection lost" }

/-- A fetched mail from `Ann <a@x.com>` with a plain text body. -/
def mailFromA (seq : Nat) (subject messageId : String) : imap.Message :=
  { SeqNum := seq
    Envelope := some
      { Subject := subject
        From := [{ PersonalName := "Ann", MailboxName := "a", HostName := "x.com" }]
        MessageId := messageId }
    Body := imap.BodyData.parts [email.inlinePart "text/plain" "hello"] mail.ReaderEnd.eof }

/-- A fetched mail from `b@y.org` without a display name. -/
def mailFromB (seq : Nat) (subject messageId : String) : imap.Message :=
  { SeqNum := seq
    Envelope := some
      { Subject := subject
        From := [{ PersonalName := "", MailboxName := "b", HostName := "y.org" }]
        MessageId := messageId }
    Body := imap.BodyData.parts [email.inlinePart "text/html" "<p>hi</p>"]
      mail.ReaderEnd.eof }

/-- Configuration used in the examples. -/
def exampleConf : Config :=
  { ChatID := -1001, Email := { Username := "support@x.com" } }

/-- A chat message of a human user in topic `thread` of the configured chat. -/
def chatUpdate (thread : Int) : models.Update :=
  { Message := some
      { ChatID := -1001, IsTopicMessage := true, MessageThreadID := thread
        From := some { FirstName := "Bob", LastName := "Ray", IsBot := false }
        Text := "on it" } }

/-- A table holding the thread of `a@x.com` with handle 77 and a telegram thread. -/
def exampleTable : List database.Topic :=
  [{ ID := "1", Typ := database.TopicTypeTelegram, Target := "a@x.com", TopicID := 5,
     Subject := none, MessageID := none, CreatedAt := 1 },
   { ID := "2", Typ := database.TopicTypeEmail, Target := "a@x.com", TopicID := 77,
     Subject := some "Help", MessageID := some "<m11@x.com>", CreatedAt := 2 }]

/-- Row `t` carries the subject and message reference of the inbound message of the list
that was processed last among those resolved to the handle of `t`: the message `x` at some
position was resolved to `t.TopicID` on the table reached before it, `t` holds its subject
and message id, and no later message of the list was resolved to `t.TopicID`. -/
def LastResolved (conf : Config) (inbound : List (World × imap.Message))
    (t : database.Topic) : Prop :=
  ∃ pre x post envelope, inbound = pre ++ x :: post ∧ x.2.Envelope = some envelope ∧
    resolvedHandle conf (processInbound conf [] pre).db x = some t.TopicID ∧
    t.Subject = some envelope.Subject ∧ t.MessageID = some envelope.MessageId ∧
    ∀ mid y post1, post = mid ++ y :: post1 →
      resolvedHandle conf (processInbound conf [] (pre ++ x :: mid)).db y ≠ some t.TopicID

/-- A stand-in for `TelegramName`. -/
def exampleName (first last : String) : String := first ++ " " ++ last

end main

/-! ## The poller: lemmas -/

namespace email

theorem delivered_append (as bs : List Action) :
    delivered (as ++ bs) = delivered as ++ delivered bs := by
  simp [delivered, List.filterMap_append]

theorem fetched_append (as bs : List Action) :
    fetched (as ++ bs) = fetched as ++ fetched bs := by
  simp [fetched, List.filterMap_append]

theorem delivered_callbacks (msgs : List imap.Message) :
    delivered (msgs.map Action.callback) = msgs.map (fun m => m.SeqNum) := by
  induction msgs with
  | nil => rfl
  | cons m rest ih =>
    simp only [List.map_cons]
    rw [← ih]
    rfl

theorem fetched_callbacks (msgs : List imap.Message) :
    fetched (msgs.map Action.callback) = [] := by
  induction msgs with
  | nil => rfl
  | cons m rest ih =>
    simp only [List.map_cons]
    rw [← ih]
    rfl

theorem flatMap_callback (msgs : List imap.Message) :
    msgs.flatMap (fun msg => [Action.callback msg]) = msgs.map Action.callback := by
  induction msgs with
  | nil => rfl
  | cons m rest ih => simp [List.flatMap_cons, ih]

theorem range_glue (a b c : Nat) (hab : a ≤ b) (hbc : b ≤ c) :
    List.range' (a + 1) (b - a) ++ List.range' (b + 1) (c - b) = List.range' (a + 1) (c - a) := by
  obtain ⟨k, rfl⟩ := Nat.exists_eq_add_of_le hab
  obtain ⟨m, rfl⟩ := Nat.exists_eq_add_of_le hbc
  have h1 : a + k - a = k := by omega
  have h2 : a + k + m - (a + k) = m := by omega
  have h3 : a + k + m - a = k + m := by omega
  have h4 : a + k + 1 = a + 1 + k := by omega
  rw [h1, h2, h3, h4, List.range'_append_1, Nat.add_comm m k]

/-- A tick whose count read fails. -/
theorem check_select_error (em : EmailMonitor) (mb : Mailbox) (err : String)
    (h : mb.Select = .error err) : checkForNewEmails em mb = (em, [Action.select]) := by
  simp [checkForNewEmails, SelectMailbox, h]

/-- A tick that sees no growth. -/
theorem check_no_growth (em : EmailMonitor) (mb : Mailbox) (current : Nat)
    (h : mb.Select = .ok current) (hle : current ≤ em.lastCount) :
    checkForNewEmails em mb = (em, [Action.select]) := by
  have : ¬ current > em.lastCount := Nat.not_lt.mpr hle
  simp [checkForNewEmails, SelectMailbox, h, this]

/-- A tick that sees growth and whose fetch fails. -/
theorem check_fetch_error (em : EmailMonitor) (mb : Mailbox) (current : Nat) (err : String)
    (h : mb.Select = .ok current) (hgt : current > em.lastCount)
    (hf : mb.Fetch ((em.lastCount + 1) % uint32Size) current = .error err) :
    checkForNewEmails em mb
      = (em, [Action.select, Action.fetch ((em.lastCount + 1) % uint32Size) current]) := by
  simp [checkForNewEmails, SelectMailbox, fetchNewMessages, h, hgt, hf]

/-- A tick that sees growth and whose fetch succeeds. -/
theorem check_fetch_ok (em : EmailMonitor) (mb : Mailbox) (current : Nat)
    (msgs : List imap.Message) (hcb : em.callback = true)
    (h : mb.Select = .ok current) (hgt : current > em.lastCount)
    (hf : mb.Fetch ((em.lastCount + 1) % uint32Size) current = .ok msgs) :
    checkForNewEmails em mb
      = ({ em with lastCount := current },
         [Action.select, Action.fetch ((em.lastCount + 1) % uint32Size) current]
           ++ msgs.map Action.callback) := by
  simp [checkForNewEmails, SelectMailbox, fetchNewMessages, h, hgt, hf, hcb, flatMap_callback]

/-- The start of the fetched range does not wrap when the observed count is a `uint32`. -/
theorem start_no_wrap (lastCount current : Nat) (hgt : current > lastCount)
    (hlt : current < uint32Size) : (lastCount + 1) % uint32Size = lastCount + 1 := by
  apply Nat.mod_eq_of_lt
  omega

theorem check_callback (em : EmailMonitor) (mb : Mailbox) :
    (checkForNewEmails em mb).1.callback = em.callback := by
  unfold checkForNewEmails
  cases SelectMailbox mb with
  | error e => rfl
  | ok c =>
    by_cases hgt : c > em.lastCount
    · simp only [hgt, if_true]
      cases fetchNewMessages mb ((em.lastCount + 1) % uint32Size) c <;> rfl
    · simp only [hgt, if_false]

theorem check_lastCount_le (em : EmailMonitor) (mb : Mailbox) :
    em.lastCount ≤ (checkForNewEmails em mb).1.lastCount := by
  unfold checkForNewEmails
  cases SelectMailbox mb with
  | error e => exact Nat.le_refl _
  | ok c =>
    by_cases hgt : c > em.lastCount
    · simp only [hgt, if_true]
      cases fetchNewMessages mb ((em.lastCount + 1) % uint32Size) c with
      | error e => exact Nat.le_refl _
      | ok msgs => exact Nat.le_of_lt hgt
    · simp only [hgt, if_false]
      exact Nat.le_refl _

theorem monitorLoop_lastCount_le (ticks : List Mailbox) :
    ∀ em : EmailMonitor, em.lastCount ≤ (monitorLoop em ticks).1.lastCount := by
  induction ticks with
  | nil => intro em; exact Nat.le_refl _
  | cons mb rest ih =>
    intro em
    simp only [monitorLoop]
    exact Nat.le_trans (check_lastCount_le em mb) (ih _)

theorem monitorLoop_append (pre post : List Mailbox) :
    ∀ em : EmailMonitor, monitorLoop em (pre ++ post)
      = ((monitorLoop (monitorLoop em pre).1 post).1,
         (monitorLoop em pre).2 ++ (monitorLoop (monitorLoop em pre).1 post).2) := by
  induction pre with
  | nil => intro em; simp [monitorLoop]
  | cons mb rest ih =>
    intro em
    rw [List.cons_append]
    simp only [monitorLoop]
    rw [ih]
    simp [List.append_assoc]

/-- One faithful tick delivers the indices between the old and the new cursor. -/
theorem check_faithful (em : EmailMonitor) (mb : Mailbox) (hcb : em.callback = true)
    (hmb : mb.Faithful) :
    delivered (checkForNewEmails em mb).2
      = List.range' (em.lastCount + 1) ((checkForNewEmails em mb).1.lastCount - em.lastCount) := by
  obtain ⟨⟨c, hc, hlt⟩, hfetch⟩ := hmb
  by_cases hgt : c > em.lastCount
  · have hs := start_no_wrap em.lastCount c hgt hlt
    obtain ⟨msgs, hf, hseq⟩ := hfetch (em.lastCount + 1) c (Nat.le_add_left 1 _) hgt
    rw [check_fetch_ok em mb c msgs hcb hc hgt (by rw [hs]; exact hf)]
    simp only [delivered_append, delivered_callbacks, hseq]
    have : c + 1 - (em.lastCount + 1) = c - em.lastCount := by omega
    rw [this]
    rfl
  · rw [check_no_growth em mb c hc (Nat.not_lt.mp hgt)]
    simp [delivered]

theorem monitorLoop_faithful (ticks : List Mailbox) :
    ∀ em : EmailMonitor, em.callback = true → (∀ mb ∈ ticks, mb.Faithful) →
      delivered (monitorLoop em ticks).2
        = List.range' (em.lastCount + 1) ((monitorLoop em ticks).1.lastCount - em.lastCount) := by
  induction ticks with
  | nil => intro em _ _; simp [monitorLoop, delivered]
  | cons mb rest ih =>
    intro em hcb hall
    have h1 := check_faithful em mb hcb (hall mb (List.mem_cons_self _ _))
    have h2 := ih (checkForNewEmails em mb).1 (by rw [check_callback]; exact hcb)
      (fun m hm => hall m (List.mem_cons_of_mem _ hm))
    have hle1 := check_lastCount_le em mb
    have hle2 := monitorLoop_lastCount_le rest (checkForNewEmails em mb).1
    simp only [monitorLoop, delivered_append, h1, h2]
    exact range_glue _ _ _ hle1 hle2

theorem bareMailbox_faithful (count : Nat) (h : count < uint32Size) :
    (bareMailbox count).Faithful := by
  refine ⟨⟨count, rfl, h⟩, ?_⟩
  intro start stop _ _
  refine ⟨_, rfl, ?_⟩
  simp [List.map_map, Function.comp_def, bareMessage]

/-! ## The poller: properties -/

/-- C1. With a callback installed and a mailbox whose count reads succeed and whose fetch
of `start..stop` returns exactly the messages numbered `start..stop`: every tick that sees
`current > cursor` dispatches the callback for the indices `cursor+1, ..., current`, each
once and no other, and moves the cursor to `current`; over any sequence of such ticks the
dispatched indices are `cursor+1, ..., final cursor` in order, so none is dispatched twice
and every one is above the initial cursor; started by `Start`, none is at or below the count
read at start. -/
theorem poller_delivers_each_index_once (em : EmailMonitor) (ticks : List Mailbox)
    (hcb : em.callback = true) (hticks : ∀ mb ∈ ticks, mb.Faithful) :
    (∀ (pre post : List Mailbox) (mb : Mailbox) (current : Nat),
        ticks = pre ++ mb :: post → mb.Select = .ok current →
        current > (monitorLoop em pre).1.lastCount →
        delivered (checkForNewEmails (monitorLoop em pre).1 mb).2
          = List.range' ((monitorLoop em pre).1.lastCount + 1)
              (current - (monitorLoop em pre).1.lastCount) ∧
        (checkForNewEmails (monitorLoop em pre).1 mb).1.lastCount = current) ∧
    delivered (monitorLoop em ticks).2
      = List.range' (em.lastCount + 1) ((monitorLoop em ticks).1.lastCount - em.lastCount) ∧
    (delivered (monitorLoop em ticks).2).Nodup ∧
    (∀ i ∈ delivered (monitorLoop em ticks).2, em.lastCount < i) ∧
    (∀ (em0 : EmailMonitor) (mb0 : Mailbox) (count0 : Nat),
        mb0.Select = .ok count0 → Start em0 mb0 = .ok em →
        ∀ i ∈ delivered (monitorLoop em ticks).2, count0 < i) := by
  have hrun := monitorLoop_faithful ticks em hcb hticks
  have habove : ∀ i ∈ delivered (monitorLoop em ticks).2, em.lastCount < i := by
    intro i hi
    rw [hrun, List.mem_range'_1] at hi
    omega
  have hcbs : ∀ pre : List Mailbox, (monitorLoop em pre).1.callback = true := by
    intro pre
    induction pre using List.reverseRecOn with
    | nil => exact hcb
    | append_singleton l mb ih =>
      rw [monitorLoop_append]
      simp only [monitorLoop]
      rw [check_callback]
      exact ih
  refine ⟨?_, hrun, ?_, habove, ?_⟩
  · intro pre post mb current hsplit hsel hgt
    have hmb : mb.Faithful := hticks mb (by rw [hsplit]; simp)
    have h := check_faithful (monitorLoop em pre).1 mb (hcbs pre) hmb
    obtain ⟨⟨c, hc, hlt⟩, hfetch⟩ := hmb
    have hcc : c = current := by
      rw [hsel] at hc
      exact (Except.ok.inj hc).symm
    subst hcc
    obtain ⟨msgs, hf, _⟩ := hfetch ((monitorLoop em pre).1.lastCount + 1) c
      (Nat.le_add_left 1 _) hgt
    have hs := start_no_wrap _ c hgt hlt
    have hstep := check_fetch_ok (monitorLoop em pre).1 mb c msgs (hcbs pre) hsel hgt
      (by rw [hs]; exact hf)
    have hlast : (checkForNewEmails (monitorLoop em pre).1 mb).1.lastCount = c := by
      rw [hstep]
    rw [hlast] at h
    exact ⟨h, hlast⟩
  · rw [hrun]
    exact List.nodup_range' _ _
  · intro em0 mb0 count0 hsel hstart i hi
    have hcount : em.lastCount = count0 := by
      unfold Start at hstart
      by_cases hr : em0.running = true
      · simp [hr] at hstart
      · simp only [hr, SelectMailbox, hsel] at hstart
        simp at hstart
        rw [← hstart]
    rw [← hcount]
    exact habove i hi

/-- C1 at a concrete run: cursor 10 and observed counts 12, 12, 11, 15. -/
theorem poller_delivers_each_index_once_witness :
    delivered (monitorLoop { lastCount := 10, callback := true, running := true }
      [bareMailbox 12, bareMailbox 12, bareMailbox 11, bareMailbox 15]).2
      = [11, 12, 13, 14, 15] ∧
    delivered (checkForNewEmails (monitorLoop { lastCount := 10, callback := true, running := true }
      [bareMailbox 12, bareMailbox 12, bareMailbox 11]).1 (bareMailbox 15)).2
      = [13, 14, 15] :=
  have h := poller_delivers_each_index_once { lastCount := 10, callback := true, running := true }
    [bareMailbox 12, bareMailbox 12, bareMailbox 11, bareMailbox 15] rfl
    (by
      intro mb hmb
      simp only [List.mem_cons, List.mem_singleton, List.not_mem_nil, or_false] at hmb
      rcases hmb with h | h | h | h <;> subst h <;>
        exact bareMailbox_faithful _ (by decide))
  ⟨h.2.1, (h.1 [bareMailbox 12, bareMailbox 12, bareMailbox 11] [] (bareMailbox 15) 15
    rfl rfl (by decide)).1⟩

/-- C2. A tick that observes `current <= cursor` leaves the monitor as it was, requests no
fetch and dispatches no callback; and over any sequence of ticks, whatever the server
answers, the cursor never decreases. -/
theorem no_growth_tick_is_idle (em : EmailMonitor) (mb : Mailbox) (current : Nat)
    (hsel : mb.Select = .ok current) (hle : current ≤ em.lastCount) :
    (checkForNewEmails em mb).1 = em ∧
    fetched (checkForNewEmails em mb).2 = [] ∧
    delivered (checkForNewEmails em mb).2 = [] ∧
    (∀ (e : EmailMonitor) (pre post : List Mailbox),
        (monitorLoop e pre).1.lastCount ≤ (monitorLoop e (pre ++ post)).1.lastCount) := by
  rw [check_no_growth em mb current hsel hle]
  refine ⟨rfl, rfl, rfl, ?_⟩
  intro e pre post
  rw [monitorLoop_append]
  exact monitorLoop_lastCount_le post _

/-- C2 at a concrete tick: cursor 12, observed count 9. -/
theorem no_growth_tick_is_idle_witness :
    (checkForNewEmails { lastCount := 12, callback := true, running := true }
      (bareMailbox 9)).1 = { lastCount := 12, callback := true, running := true } :=
  (no_growth_tick_is_idle { lastCount := 12, callback := true, running := true }
    (bareMailbox 9) 9 rfl (by decide)).1

/-- C3. A tick whose count read fails, or that sees growth and whose fetch of
`cursor+1..current` fails, leaves the monitor as it was and dispatches no callback. If the
next tick observes the count `current` of the failed fetch and its fetch succeeds, it requests
the same range `cursor+1..current`, dispatches every message returned and moves the cursor
to `current`. -/
theorem failed_tick_keeps_cursor (em : EmailMonitor) (mb : Mailbox)
    (hfail : (∃ err, mb.Select = .error err) ∨
      (∃ current err, mb.Select = .ok current ∧ current > em.lastCount ∧
        mb.Fetch ((em.lastCount + 1) % uint32Size) current = .error err)) :
    (checkForNewEmails em mb).1 = em ∧
    delivered (checkForNewEmails em mb).2 = [] ∧
    (∀ (current : Nat) (err : String) (next : Mailbox) (msgs : List imap.Message),
        mb.Select = .ok current → current > em.lastCount → current < uint32Size →
        mb.Fetch ((em.lastCount + 1) % uint32Size) current = .error err →
        em.callback = true → next.Select = .ok current →
        next.Fetch (em.lastCount + 1) current = .ok msgs →
        fetched (checkForNewEmails em mb).2 = [(em.lastCount + 1, current)] ∧
        fetched (checkForNewEmails (checkForNewEmails em mb).1 next).2
          = [(em.lastCount + 1, current)] ∧
        (checkForNewEmails (checkForNewEmails em mb).1 next).2
          = [Action.select, Action.fetch (em.lastCount + 1) current]
              ++ msgs.map Action.callback ∧
        (checkForNewEmails (checkForNewEmails em mb).1 next).1.lastCount = current) := by
  have hsame : (checkForNewEmails em mb).1 = em ∧ delivered (checkForNewEmails em mb).2 = [] := by
    rcases hfail with ⟨err, h⟩ | ⟨current, err, h, hgt, hf⟩
    · rw [check_select_error em mb err h]
      exact ⟨rfl, rfl⟩
    · rw [check_fetch_error em mb current err h hgt hf]
      exact ⟨rfl, rfl⟩
  refine ⟨hsame.1, hsame.2, ?_⟩
  intro current err next msgs hsel hgt hlt hf hcb hsel2 hf2
  have hs := start_no_wrap em.lastCount current hgt hlt
  have h1 := check_fetch_error em mb current err hsel hgt hf
  have h2 := check_fetch_ok em next current msgs hcb hsel2 hgt (by rw [hs]; exact hf2)
  rw [hs] at h1 h2
  rw [hsame.1, h1, h2]
  refine ⟨rfl, ?_, rfl, rfl⟩
  rw [fetched_append, fetched_callbacks]
  rfl

/-- C3 at a concrete tick: cursor 10, count 12, fetch fails. -/
theorem failed_tick_keeps_cursor_witness :
    (checkForNewEmails { lastCount := 10, callback := true, running := true }
      (brokenMailbox 12)).1 = { lastCount := 10, callback := true, running := true } ∧
    (checkForNewEmails (checkForNewEmails { lastCount := 10, callback := true, running := true }
      (brokenMailbox 12)).1 (bareMailbox 12)).2
      = [Action.select, Action.fetch 11 12, Action.callback (bareMessage 11),
         Action.callback (bareMessage 12)] :=
  ⟨(failed_tick_keeps_cursor { lastCount := 10, callback := true, running := true }
      (brokenMailbox 12) (Or.inr ⟨12, "connection reset", rfl, by decide, rfl⟩)).1,
   ((failed_tick_keeps_cursor { lastCount := 10, callback := true, running := true }
      (brokenMailbox 12) (Or.inr ⟨12, "connection reset", rfl, by decide, rfl⟩)).2.2
      12 "connection reset" (bareMailbox 12) [bareMessage 11, bareMessage 12]
      rfl (by decide) (by decide) rfl rfl rfl rfl).2.2.1⟩

end email

/-! ## The body extractor and the reply subject -/

namespace email

set_option maxRecDepth 100000 in
theorem or_high_bits (y : UInt8) :
    ¬ (y ||| 192) < 128 ∧ ¬ (y ||| 224) < 128 ∧ ¬ (y ||| 240) < 128 := by
  cases y with
  | mk bv =>
    cases bv with
    | ofFin f => revert f; decide

/-- A UTF-8 encoding whose first byte is below 128 is the one byte of an ASCII character. -/
theorem utf8_head_ascii (c : Char) (b : UInt8) (bs : List UInt8)
    (h : String.utf8EncodeChar c = b :: bs) (hb : b < 128) :
    c.val ≤ 127 ∧ b = c.val.toUInt8 ∧ bs = [] := by
  unfold String.utf8EncodeChar at h
  simp only at h
  split at h
  · rename_i h1
    simp at h
    exact ⟨h1, h.1.symm, h.2⟩
  · exfalso
    split at h
    · simp at h
      rw [← h.1] at hb
      exact (or_high_bits _).1 hb
    · split at h
      · simp at h
        rw [← h.1] at hb
        exact (or_high_bits _).2.1 hb
      · simp at h
        rw [← h.1] at hb
        exact (or_high_bits _).2.2 hb

theorem utf8_ne_nil (c : Char) : String.utf8EncodeChar c ≠ [] := by
  unfold String.utf8EncodeChar
  simp only
  split
  · simp
  · split
    · simp
    · split <;> simp

theorem ascii_char_eq (c : Char) (k : Nat) (hk : k < 128) (h : c.val ≤ 127)
    (h2 : c.val.toUInt8 = UInt8.ofNat k) : c = Char.ofNat k := by
  have h3 : c.val.toNat ≤ 127 := h
  have h4 := congrArg UInt8.toNat h2
  simp [UInt32.toUInt8, UInt8.toNat, UInt8.ofNat, Nat.toUInt8] at h4
  have h5 : c.toNat = k := by
    show c.val.toNat = k
    omega
  rw [← h5]
  exact (Char.ofNat_toNat c).symm

/-- If the bytes of `c :: r` start with a byte `k < 128`, then `c` is the ASCII character
`k` and the other bytes are those of `r`. -/
theorem bytes_cons_ascii (c : Char) (r : List Char) (k : Nat) (hk : k < 128)
    (t : List UInt8)
    (h : (c :: r).flatMap String.utf8EncodeChar = UInt8.ofNat k :: t) :
    c = Char.ofNat k ∧ t = r.flatMap String.utf8EncodeChar := by
  rw [List.flatMap_cons] at h
  cases henc : String.utf8EncodeChar c with
  | nil => exact absurd henc (utf8_ne_nil c)
  | cons b bs =>
    rw [henc] at h
    simp only [List.cons_append, List.cons.injEq] at h
    obtain ⟨hb, ht⟩ := h
    subst hb
    have hlt : UInt8.ofNat k < 128 := by
      show (UInt8.ofNat k).toNat < 128
      simp [UInt8.toNat, UInt8.ofNat]
      omega
    obtain ⟨h1, h2, h3⟩ := utf8_head_ascii c _ bs henc hlt
    subst h3
    exact ⟨ascii_char_eq c k hk h1 h2.symm, by simpa using ht.symm⟩

theorem goBytes_re : goBytes "Re:" = [UInt8.ofNat 82, UInt8.ofNat 101, UInt8.ofNat 58] := by
  decide

/-- The byte test of `buildReplySubject` holds exactly for the strings that start with the
characters `R`, `e`, `:`. -/
theorem bytes_start_iff (s : String) :
    ((goBytes s).length ≥ 3 ∧ (goBytes s).take 3 = goBytes "Re:") ↔ "Re:".data <+: s.data := by
  constructor
  · rintro ⟨_, htake⟩
    rw [goBytes_re] at htake
    have hsplit : goBytes s
        = UInt8.ofNat 82 :: UInt8.ofNat 101 :: UInt8.ofNat 58 :: (goBytes s).drop 3 := by
      conv_lhs => rw [← List.take_append_drop 3 (goBytes s), htake]
      rfl
    unfold goBytes at hsplit
    generalize (s.data.flatMap String.utf8EncodeChar).drop 3 = tail at hsplit
    cases h1 : s.data with
    | nil => rw [h1] at hsplit; simp at hsplit
    | cons c1 r1 =>
      rw [h1] at hsplit
      obtain ⟨e1, hsplit⟩ := bytes_cons_ascii c1 r1 82 (by decide) _ hsplit
      cases r1 with
      | nil => simp at hsplit
      | cons c2 r2 =>
        obtain ⟨e2, hsplit⟩ := bytes_cons_ascii c2 r2 101 (by decide) _ hsplit.symm
        cases r2 with
        | nil => simp at hsplit
        | cons c3 r3 =>
          obtain ⟨e3, _⟩ := bytes_cons_ascii c3 r3 58 (by decide) _ hsplit.symm
          subst e1 e2 e3
          exact ⟨r3, rfl⟩
  · rintro ⟨rest, hrest⟩
    have hb : goBytes s = UInt8.ofNat 82 :: UInt8.ofNat 101 :: UInt8.ofNat 58 ::
        rest.flatMap String.utf8EncodeChar := by
      unfold goBytes
      rw [← hrest]
      rfl
    rw [hb, goBytes_re]
    exact ⟨by simp, rfl⟩

/-- C7. `buildReplySubject s` is `s` when `s` begins with the three characters `Re:` and
`"Re: "` followed by `s` otherwise; the three values of the specification. -/
theorem buildReplySubject_spec :
    (∀ s : String,
      buildReplySubject s = if "Re:".data <+: s.data then s else "Re: " ++ s) ∧
    (∀ rest : String, buildReplySubject ("Re:" ++ rest) = "Re:" ++ rest) ∧
    buildReplySubject "" = "Re: " ∧
    buildReplySubject "Re: hi" = "Re: hi" ∧
    buildReplySubject "hi" = "Re: hi" := by
  have main : ∀ s : String,
      buildReplySubject s = if "Re:".data <+: s.data then s else "Re: " ++ s := by
    intro s
    unfold buildReplySubject
    by_cases he : s = ""
    · subst he
      have : ¬ "Re:".data <+: "".data := by decide
      rw [if_pos rfl, if_neg this]
      rfl
    · rw [if_neg he]
      by_cases hp : "Re:".data <+: s.data
      · rw [if_pos ((bytes_start_iff s).mpr hp), if_pos hp]
      · rw [if_neg (fun h => hp ((bytes_start_iff s).mp h)), if_neg hp]
  refine ⟨main, ?_, ?_, ?_, ?_⟩
  · intro rest
    rw [main, if_pos]
    exact ⟨rest.data, rfl⟩
  · rw [main, if_neg (by decide)]; rfl
  · rw [main, if_pos (by decide)]
  · rw [main, if_neg (by decide)]; rfl

/-- Parts before the first readable inline `text/plain` part only change `htmlBody`. -/
theorem loop_skip (pre rest : List (Except String mail.Part)) (tail : mail.ReaderEnd) :
    ∀ htmlBody : String, (∀ r ∈ pre, isInline "text/plain" r = false) →
      ∃ html1, GetMessageBody.loop (pre ++ rest) tail htmlBody
        = GetMessageBody.loop rest tail html1 := by
  induction pre with
  | nil => intro htmlBody _; exact ⟨htmlBody, rfl⟩
  | cons r pre ih =>
    intro htmlBody hpre
    have hr := hpre r (List.mem_cons_self _ _)
    have hrest : ∀ x ∈ pre, isInline "text/plain" x = false :=
      fun x hx => hpre x (List.mem_cons_of_mem _ hx)
    rw [List.cons_append]
    cases r with
    | error e => exact ih htmlBody hrest
    | ok p =>
      obtain ⟨hd, bd⟩ := p
      cases hd with
      | InlineHeader ct =>
        cases bd with
        | error e => exact ih htmlBody hrest
        | ok b =>
          have hct : ¬ ct = "text/plain" := by simpa [isInline] using hr
          simp only [GetMessageBody.loop, hct, if_false]
          by_cases hh : ct = "text/html"
          · simp only [hh, if_true]
            exact ih b hrest
          · simp only [hh, if_false]
            exact ih htmlBody hrest
      | AttachmentHeader ct => exact ih htmlBody hrest
      | other => exact ih htmlBody hrest

/-- Without readable inline text parts the loop ends as it does on no parts at all. -/
theorem loop_no_text (post : List (Except String mail.Part)) (tail : mail.ReaderEnd)
    (htmlBody : String)
    (hplain : ∀ r ∈ post, isInline "text/plain" r = false)
    (hhtml : ∀ r ∈ post, isInline "text/html" r = false) :
    GetMessageBody.loop post tail htmlBody = GetMessageBody.loop [] tail htmlBody := by
  induction post with
  | nil => rfl
  | cons r post ih =>
    have hr1 := hplain r (List.mem_cons_self _ _)
    have hr2 := hhtml r (List.mem_cons_self _ _)
    have ih1 := ih (fun x hx => hplain x (List.mem_cons_of_mem _ hx))
      (fun x hx => hhtml x (List.mem_cons_of_mem _ hx))
    cases r with
    | error e => exact ih1
    | ok p =>
      obtain ⟨hd, bd⟩ := p
      cases hd with
      | InlineHeader ct =>
        cases bd with
        | error e => exact ih1
        | ok b =>
          have hct : ¬ ct = "text/plain" := by simpa [isInline] using hr1
          have hch : ¬ ct = "text/html" := by simpa [isInline] using hr2
          simp only [GetMessageBody.loop, hct, hch, if_false]
          exact ih1
      | AttachmentHeader ct => exact ih1
      | other => exact ih1

/-- On a reader that never reaches `io.EOF` the loop ends only at a readable inline
`text/plain` part. -/
theorem loop_stuck (ps : List (Except String mail.Part)) :
    ∀ htmlBody : String, (∀ r ∈ ps, isInline "text/plain" r = false) →
      GetMessageBody.loop ps mail.ReaderEnd.stuck htmlBody = Outcome.hangs := by
  intro htmlBody hps
  obtain ⟨html1, h⟩ := loop_skip ps [] mail.ReaderEnd.stuck htmlBody hps
  rw [List.append_nil] at h
  rw [h]
  rfl

/-- Attachments do not influence the loop. -/
theorem loop_filter_attachments (ps : List (Except String mail.Part))
    (tail : mail.ReaderEnd) :
    ∀ htmlBody : String, GetMessageBody.loop ps tail htmlBody
      = GetMessageBody.loop (ps.filter (fun r => !isAttachment r)) tail htmlBody := by
  induction ps with
  | nil => intro htmlBody; rfl
  | cons r ps ih =>
    intro htmlBody
    cases r with
    | error e =>
      rw [List.filter_cons_of_pos (by rfl)]
      exact ih htmlBody
    | ok p =>
      obtain ⟨hd, bd⟩ := p
      cases hd with
      | InlineHeader ct =>
        rw [List.filter_cons_of_pos (by rfl)]
        cases bd with
        | error e => exact ih htmlBody
        | ok b =>
          simp only [GetMessageBody.loop]
          rw [← ih b, ← ih htmlBody]
      | AttachmentHeader ct =>
        rw [List.filter_cons_of_neg (by simp [isAttachment])]
        exact ih htmlBody
      | other =>
        rw [List.filter_cons_of_pos (by rfl)]
        exact ih htmlBody

/-- What the loop returns is the `htmlBody` it started with or the content of a readable
inline `text/plain` or `text/html` part. -/
theorem loop_result_origin (ps : List (Except String mail.Part)) (tail : mail.ReaderEnd) :
    ∀ (htmlBody s : String),
      GetMessageBody.loop ps tail htmlBody = Outcome.returns (.ok s) →
      s = htmlBody ∧ htmlBody ≠ "" ∨
      ∃ ct, inlinePart ct s ∈ ps ∧ (ct = "text/plain" ∨ ct = "text/html") := by
  induction ps with
  | nil =>
    intro htmlBody s h
    cases tail with
    | stuck => simp [GetMessageBody.loop] at h
    | eof =>
      by_cases hh : htmlBody = ""
      · simp [GetMessageBody.loop, hh] at h
      · simp [GetMessageBody.loop, hh] at h
        exact Or.inl ⟨h.symm, hh⟩
  | cons r ps ih =>
    intro htmlBody s h
    have lift : (s = htmlBody ∧ htmlBody ≠ "" ∨
        ∃ ct, inlinePart ct s ∈ ps ∧ (ct = "text/plain" ∨ ct = "text/html")) →
        (s = htmlBody ∧ htmlBody ≠ "" ∨
        ∃ ct, inlinePart ct s ∈ r :: ps ∧ (ct = "text/plain" ∨ ct = "text/html")) := by
      rintro (h1 | ⟨ct, hm, hc⟩)
      · exact Or.inl h1
      · exact Or.inr ⟨ct, List.mem_cons_of_mem _ hm, hc⟩
    cases r with
    | error e => exact lift (ih htmlBody s h)
    | ok p =>
      obtain ⟨hd, bd⟩ := p
      cases hd with
      | InlineHeader ct =>
        cases bd with
        | error e => exact lift (ih htmlBody s h)
        | ok b =>
          simp only [GetMessageBody.loop] at h
          by_cases hct : ct = "text/plain"
          · simp only [hct, if_true] at h
            have hb : b = s := Except.ok.inj (Outcome.returns.inj h)
            subst hb hct
            exact Or.inr ⟨"text/plain", List.mem_cons_self _ _, Or.inl rfl⟩
          · simp only [hct, if_false] at h
            by_cases hch : ct = "text/html"
            · simp only [hch, if_true] at h
              rcases ih b s h with ⟨h1, _⟩ | ⟨ct1, hm, hc⟩
              · subst h1 hch
                exact Or.inr ⟨"text/html", List.mem_cons_self _ _, Or.inr rfl⟩
              · exact Or.inr ⟨ct1, List.mem_cons_of_mem _ hm, hc⟩
            · simp only [hch, if_false] at h
              exact lift (ih htmlBody s h)
      | AttachmentHeader ct => exact lift (ih htmlBody s h)
      | other => exact lift (ih htmlBody s h)

/-- C8. For a message with a body section whose part sequence holds a readable inline
`text/plain` part, `GetMessageBody` returns, and returns the content of the first such
part, whatever comes before or after it and whether or not the reader would reach `io.EOF`
later. Attachments are never returned: removing them from any message does not change the
result, and every returned text is the content of an inline `text/plain` or `text/html`
part. -/
theorem GetMessageBody_first_plain (msg : imap.Message)
    (pre post : List (Except String mail.Part)) (tail : mail.ReaderEnd) (content : String)
    (hbody : msg.Body
      = imap.BodyData.parts (pre ++ inlinePart "text/plain" content :: post) tail)
    (hfirst : ∀ r ∈ pre, isInline "text/plain" r = false) :
    GetMessageBody msg = Outcome.returns (.ok content) ∧
    (∀ (m : imap.Message) (ps : List (Except String mail.Part)) (tl : mail.ReaderEnd),
        m.Body = imap.BodyData.parts ps tl →
        GetMessageBody m
          = GetMessageBody (messageOfParts (ps.filter (fun r => !isAttachment r)) tl)) ∧
    (∀ (m : imap.Message) (s : String), GetMessageBody m = Outcome.returns (.ok s) →
        ∃ ps tl ct, m.Body = imap.BodyData.parts ps tl ∧ inlinePart ct s ∈ ps ∧
          (ct = "text/plain" ∨ ct = "text/html")) := by
  refine ⟨?_, ?_, ?_⟩
  · unfold GetMessageBody
    rw [hbody]
    obtain ⟨html1, h⟩ := loop_skip pre (inlinePart "text/plain" content :: post) tail ""
      hfirst
    show GetMessageBody.loop (pre ++ inlinePart "text/plain" content :: post) tail "" = _
    rw [h]
    simp only [inlinePart, GetMessageBody.loop, if_true]
  · intro m ps tl hm
    unfold GetMessageBody
    rw [hm]
    exact loop_filter_attachments ps tl ""
  · intro m s h
    unfold GetMessageBody at h
    cases hb : m.Body with
    | absent => simp [hb] at h
    | noSection => simp [hb] at h
    | unreadable e => simp [hb] at h
    | parts ps tl =>
      rw [hb] at h
      rcases loop_result_origin ps tl "" s h with ⟨_, h2⟩ | ⟨ct, hm, hc⟩
      · exact absurd rfl h2
      · exact ⟨ps, tl, ct, rfl, hm, hc⟩

/-- C8 at a concrete message: HTML and a `text/plain` attachment come first, and the
reader fails for good after the last part. -/
theorem GetMessageBody_first_plain_witness :
    GetMessageBody (messageOfParts
      [inlinePart "text/html" "<p>hello</p>", attachmentPart "text/plain" "notes",
       inlinePart "text/plain" "hello", inlinePart "text/plain" "second",
       inlinePart "text/html" "<p>late</p>"] mail.ReaderEnd.stuck)
      = Outcome.returns (.ok "hello") :=
  (GetMessageBody_first_plain _
    [inlinePart "text/html" "<p>hello</p>", attachmentPart "text/plain" "notes"]
    [inlinePart "text/plain" "second", inlinePart "text/html" "<p>late</p>"]
    mail.ReaderEnd.stuck "hello" rfl (by decide)).1

/-- C9 as stated fails on two messages that have a body section, no `text/plain` part and
one inline `text/html` part. When the content of the part is empty and the reader reaches
`io.EOF`, `GetMessageBody` fails with `no readable body found`. When the part is followed by
an attachment cut before the closing boundary, the reader never reaches `io.EOF` and
`GetMessageBody` never returns. -/
theorem GetMessageBody_empty_html :
    GetMessageBody (messageOfParts [inlinePart "text/html" ""] mail.ReaderEnd.eof)
      = Outcome.returns (.error "no readable body found") ∧
    (¬ ∀ content : String,
        GetMessageBody (messageOfParts [inlinePart "text/html" content] mail.ReaderEnd.eof)
          = Outcome.returns (.ok content)) ∧
    GetMessageBody (messageOfParts
      [inlinePart "text/html" "<p>hi</p>", attachmentPart "application/pdf" ""]
      mail.ReaderEnd.stuck) = Outcome.hangs := by
  have h : GetMessageBody (messageOfParts [inlinePart "text/html" ""] mail.ReaderEnd.eof)
      = Outcome.returns (.error "no readable body found") := by decide
  refine ⟨h, fun hall => ?_, by decide⟩
  have h2 := hall ""
  rw [h] at h2
  exact Except.noConfusion (Outcome.returns.inj h2)

/-- C9, amended. For a message with a body section whose part reader reaches `io.EOF`,
with no readable inline `text/plain` part and a readable inline `text/html` part (the last
one, if several), `GetMessageBody` returns: the raw content of that part unmodified when
the content is not empty, the error `no readable body found` when it is empty. -/
theorem GetMessageBody_html_only (msg : imap.Message)
    (pre post : List (Except String mail.Part)) (content : String)
    (hbody : msg.Body = imap.BodyData.parts (pre ++ inlinePart "text/html" content :: post)
      mail.ReaderEnd.eof)
    (hplain : ∀ r ∈ pre ++ post, isInline "text/plain" r = false)
    (hlast : ∀ r ∈ post, isInline "text/html" r = false) :
    (content ≠ "" → GetMessageBody msg = Outcome.returns (.ok content)) ∧
    (content = "" →
      GetMessageBody msg = Outcome.returns (.error "no readable body found")) := by
  have hloop : GetMessageBody msg = GetMessageBody.loop [] mail.ReaderEnd.eof content := by
    unfold GetMessageBody
    rw [hbody]
    obtain ⟨html1, h⟩ := loop_skip pre (inlinePart "text/html" content :: post)
      mail.ReaderEnd.eof "" (fun r hr => hplain r (List.mem_append_left _ hr))
    have hstep : GetMessageBody.loop (inlinePart "text/html" content :: post)
        mail.ReaderEnd.eof html1 = GetMessageBody.loop post mail.ReaderEnd.eof content := by
      have : ¬ "text/html" = "text/plain" := by decide
      simp only [inlinePart, GetMessageBody.loop, this, if_false, if_true]
    show GetMessageBody.loop (pre ++ inlinePart "text/html" content :: post)
      mail.ReaderEnd.eof "" = _
    rw [h, hstep]
    exact loop_no_text post mail.ReaderEnd.eof content
      (fun r hr => hplain r (List.mem_append_right _ hr)) hlast
  rw [hloop]
  constructor
  · intro hne
    simp [GetMessageBody.loop, hne]
  · intro he
    simp [GetMessageBody.loop, he]

/-- C9, amended, at a concrete message with an attachment and two HTML parts. -/
theorem GetMessageBody_html_only_witness :
    GetMessageBody (messageOfParts
      [inlinePart "text/html" "<p>first</p>", attachmentPart "text/plain" "notes",
       inlinePart "text/html" "<p>last</p>"] mail.ReaderEnd.eof)
      = Outcome.returns (.ok "<p>last</p>") :=
  (GetMessageBody_html_only _
    [inlinePart "text/html" "<p>first</p>", attachmentPart "text/plain" "notes"]
    [] "<p>last</p>" rfl (by decide) (by decide)).1 (by decide)

/-- On a message whose part reader never reaches `io.EOF` and that has no readable inline
`text/plain` part, `GetMessageBody` never returns, whatever its other parts are. -/
theorem GetMessageBody_stuck_reader (msg : imap.Message)
    (ps : List (Except String mail.Part))
    (hbody : msg.Body = imap.BodyData.parts ps mail.ReaderEnd.stuck)
    (hplain : ∀ r ∈ ps, isInline "text/plain" r = false) :
    GetMessageBody msg = Outcome.hangs := by
  unfold GetMessageBody
  rw [hbody]
  exact loop_stuck ps "" hplain

end email

/-! ## The thread store and the reconciler: lemmas -/

namespace main

open database

theorem refreshRow_preserved (h : Int) (s m : String) (t : Topic) :
    Preserved t (refreshRow h s m t) := by
  unfold refreshRow Preserved
  by_cases ht : t.TopicID = h
  · simp [ht]
  · simp [ht]

theorem isThreadOf_refreshRow (a : String) (h : Int) (s m : String) (t : Topic) :
    isThreadOf a (refreshRow h s m t) = isThreadOf a t := by
  have hp := refreshRow_preserved h s m t
  unfold isThreadOf
  rw [hp.2.1, hp.2.2.1]

theorem isThreadOf_iff (a : String) (t : Topic) :
    isThreadOf a t = true ↔ t.Typ = TopicTypeEmail ∧ t.Target = a := by
  simp [isThreadOf]

theorem filter_refresh (a : String) (h : Int) (s m : String) (db : List Topic) :
    (db.map (refreshRow h s m)).filter (isThreadOf a)
      = (db.filter (isThreadOf a)).map (refreshRow h s m) := by
  rw [List.filter_map]
  congr 1
  apply List.filter_congr
  intro t _
  exact isThreadOf_refreshRow a h s m t

theorem find_refresh (a : String) (h : Int) (s m : String) (db : List Topic) :
    (db.map (refreshRow h s m)).find? (isThreadOf a)
      = (db.find? (isThreadOf a)).map (refreshRow h s m) := by
  rw [List.find?_map]
  congr 1
  induction db with
  | nil => rfl
  | cons t db ih =>
    simp only [List.find?_cons, Function.comp, isThreadOf_refreshRow, ih]

theorem lookup_eq (db : List Topic) (fault : Option String) (a : String) :
    GetTopicByTypeTarget db fault TopicTypeEmail a = Get db fault (isThreadOf a) := rfl

/-- The three ways the lookup-then-create step can end: nothing created and the table as
it was (driver fault, or a hit), a failed creation, or a new row appended. -/
theorem resolveOrCreate_cases (conf : Config) (w : World) (db : List Topic)
    (env : imap.Envelope) (name a : String) :
    ((resolveOrCreate conf w db env name a).db = db ∧
      (resolveOrCreate conf w db env name a).effects = [] ∧
      ((resolveOrCreate conf w db env name a).topicId = none ∧
          (w.getFault = none → db.find? (isThreadOf a) = none) ∨
        ∃ t, w.getFault = none ∧ db.find? (isThreadOf a) = some t ∧
          (resolveOrCreate conf w db env name a).topicId = some t.TopicID)) ∨
    ((resolveOrCreate conf w db env name a).db = db ∧
      (resolveOrCreate conf w db env name a).topicId = none ∧
      w.getFault = none ∧ db.find? (isThreadOf a) = none) ∨
    (∃ h, w.getFault = none ∧ db.find? (isThreadOf a) = none ∧
      w.CreateForumTopic conf.ChatID (name ++ " (" ++ a ++ ")") = .ok h ∧
      (resolveOrCreate conf w db env name a).db
        = db ++ [{ ID := w.insertID, Typ := TopicTypeEmail, Target := a, TopicID := h,
                   Subject := some env.Subject, MessageID := some env.MessageId,
                   CreatedAt := w.now }] ∧
      (resolveOrCreate conf w db env name a).effects
        = [Effect.createForumTopic conf.ChatID (name ++ " (" ++ a ++ ")")] ∧
      (resolveOrCreate conf w db env name a).topicId = some h) := by
  unfold resolveOrCreate
  rw [lookup_eq]
  unfold Get
  cases hg : w.getFault with
  | some e =>
    left
    simp
  | none =>
    cases hf : db.find? (isThreadOf a) with
    | some t =>
      left
      simp
    | none =>
      right
      simp only
      unfold CreateTopic
      cases hc : w.CreateForumTopic conf.ChatID (name ++ " (" ++ a ++ ")") with
      | error e =>
        left
        simp
      | ok h =>
        unfold database.CreateTopic
        cases hi : w.insertFault with
        | some e =>
          left
          simp
        | none =>
          right
          refine ⟨h, ?_, ?_, ?_, ?_, ?_, ?_⟩ <;> trivial

/-- Go `EmailCallback` on a message with an envelope: no panic, the table is what the
lookup-then-create step left, refreshed when a `topicId` was resolved; the only possible
call of `Bot.CreateForumTopic` is the one of that step; no mail is sent. -/
theorem EmailCallback_eq (conf : Config) (w : World) (db : List Topic) (msg : imap.Message)
    (env : imap.Envelope) (henv : msg.Envelope = some env) :
    (EmailCallback conf w db msg).panicked = false ∧
    (EmailCallback conf w db msg).db
      = (match resolvedHandle conf db (w, msg) with
         | none => (resolveOrCreate conf w db env (EmailCallback.sender env).1
             (EmailCallback.sender env).2).db
         | some h => (UpdateTopicSubjectMessageID
             (resolveOrCreate conf w db env (EmailCallback.sender env).1
               (EmailCallback.sender env).2).db w.updateFault h env.Subject env.MessageId).1) ∧
    (EmailCallback conf w db msg).effects.filter isCreateForumTopic
      = (resolveOrCreate conf w db env (EmailCallback.sender env).1
          (EmailCallback.sender env).2).effects.filter isCreateForumTopic ∧
    (EmailCallback conf w db msg).effects.filter isReplyEmail
      = (resolveOrCreate conf w db env (EmailCallback.sender env).1
          (EmailCallback.sender env).2).effects.filter isReplyEmail := by
  unfold EmailCallback resolvedHandle
  simp only [henv]
  cases ht : (resolveOrCreate conf w db env (EmailCallback.sender env).1
      (EmailCallback.sender env).2).topicId with
  | none => simp
  | some h =>
    simp only
    cases hu : UpdateTopicSubjectMessageID
        (resolveOrCreate conf w db env (EmailCallback.sender env).1
          (EmailCallback.sender env).2).db w.updateFault h env.Subject env.MessageId with
    | mk db2 err =>
      cases err with
      | some e => simp
      | none =>
        cases hb : email.GetMessageBody msg with
        | hangs => simp
        | returns res =>
          cases res with
          | error e => simp
          | ok body => simp [List.filter_append, isCreateForumTopic, isReplyEmail]

theorem processInbound_cons (conf : Config) (db : List Topic) (w : World)
    (msg : imap.Message) (rest : List (World × imap.Message))
    (hp : (EmailCallback conf w db msg).panicked = false) :
    processInbound conf db ((w, msg) :: rest)
      = { db := (processInbound conf (EmailCallback conf w db msg).db rest).db
          effects := (EmailCallback conf w db msg).effects ++
            (processInbound conf (EmailCallback conf w db msg).db rest).effects
          panicked := (processInbound conf (EmailCallback conf w db msg).db rest).panicked
          hung := (EmailCallback conf w db msg).hung ||
            (processInbound conf (EmailCallback conf w db msg).db rest).hung } := by
  simp [processInbound, hp]

theorem find_of_filter_singleton (p : Topic → Bool) (db : List Topic) (t : Topic)
    (h : db.filter p = [t]) : db.find? p = some t := by
  induction db with
  | nil => simp at h
  | cons x db ih =>
    by_cases hx : p x = true
    · rw [List.filter_cons_of_pos hx] at h
      rw [List.find?_cons_of_pos _ hx]
      exact congrArg some (List.cons.inj h).1
    · rw [List.filter_cons_of_neg hx] at h
      rw [List.find?_cons_of_neg _ hx]
      exact ih h

/-- One run of `EmailCallback` for a message from `a` when the table holds exactly one
thread of `a` and the calls succeed: the thread is refreshed, nothing is created. -/
theorem EmailCallback_hit (conf : Config) (w : World) (db : List Topic) (msg : imap.Message)
    (a : String) (t : Topic) (env : imap.Envelope) (henv : msg.Envelope = some env)
    (ha : (EmailCallback.sender env).2 = a) (hg : w.getFault = none)
    (hu : w.updateFault = none) (hfind : db.find? (isThreadOf a) = some t) :
    (EmailCallback conf w db msg).panicked = false ∧
    (EmailCallback conf w db msg).db = db.map (refreshRow t.TopicID env.Subject env.MessageId) ∧
    (EmailCallback conf w db msg).effects.filter isCreateForumTopic = [] ∧
    resolvedHandle conf db (w, msg) = some t.TopicID := by
  obtain ⟨h1, h2, h3, _⟩ := EmailCallback_eq conf w db msg env henv
  have hres : resolvedHandle conf db (w, msg)
      = (resolveOrCreate conf w db env (EmailCallback.sender env).1 a).topicId := by
    simp only [resolvedHandle, henv, ha]
  rw [ha] at h2 h3
  rcases resolveOrCreate_cases conf w db env (EmailCallback.sender env).1 a with
    ⟨hdb, heff, ⟨_, hnone⟩ | ⟨t0, _, hf0, htid⟩⟩ | ⟨_, _, _, hnone⟩ | ⟨h, _, hnone, _⟩
  · rw [hnone hg] at hfind
    exact Option.noConfusion hfind
  · rw [hfind] at hf0
    have ht0 : t = t0 := Option.some.inj hf0
    subst ht0
    rw [hres, htid] at h2
    rw [hdb] at h2
    rw [heff] at h3
    refine ⟨h1, ?_, h3, ?_⟩
    · rw [h2]
      simp [UpdateTopicSubjectMessageID, hu]
    · rw [hres, htid]
  · rw [hnone] at hfind
    exact Option.noConfusion hfind
  · rw [hnone] at hfind
    exact Option.noConfusion hfind

/-- One run of `EmailCallback` for a message from `a` when the table holds no thread of `a`
and the calls succeed: one topic is created, one row inserted, then refreshed. -/
theorem EmailCallback_miss (conf : Config) (w : World) (db : List Topic)
    (msg : imap.Message) (a : String) (env : imap.Envelope) (henv : msg.Envelope = some env)
    (ha : (EmailCallback.sender env).2 = a) (hw : w.Succeeds)
    (hfind : db.find? (isThreadOf a) = none) :
    ∃ h, (EmailCallback conf w db msg).panicked = false ∧
      (EmailCallback conf w db msg).db
        = (db ++ [({ ID := w.insertID, Typ := TopicTypeEmail, Target := a, TopicID := h,
                     Subject := some env.Subject, MessageID := some env.MessageId,
                     CreatedAt := w.now } : Topic)]).map
            (refreshRow h env.Subject env.MessageId) ∧
      ((EmailCallback conf w db msg).effects.filter isCreateForumTopic).length = 1 ∧
      resolvedHandle conf db (w, msg) = some h := by
  obtain ⟨hg, hi, hu, hc⟩ := hw
  obtain ⟨h1, h2, h3, _⟩ := EmailCallback_eq conf w db msg env henv
  have hres : resolvedHandle conf db (w, msg)
      = (resolveOrCreate conf w db env (EmailCallback.sender env).1 a).topicId := by
    simp only [resolvedHandle, henv, ha]
  rw [ha] at h2 h3
  have hcreate : ∃ h, (resolveOrCreate conf w db env (EmailCallback.sender env).1 a).db
        = db ++ [{ ID := w.insertID, Typ := TopicTypeEmail, Target := a, TopicID := h,
                   Subject := some env.Subject, MessageID := some env.MessageId,
                   CreatedAt := w.now }] ∧
      (resolveOrCreate conf w db env (EmailCallback.sender env).1 a).effects
        = [Effect.createForumTopic conf.ChatID
            ((EmailCallback.sender env).1 ++ " (" ++ a ++ ")")] ∧
      (resolveOrCreate conf w db env (EmailCallback.sender env).1 a).topicId = some h := by
    unfold resolveOrCreate
    rw [lookup_eq]
    unfold Get
    obtain ⟨h, hh⟩ := hc conf.ChatID ((EmailCallback.sender env).1 ++ " (" ++ a ++ ")")
    refine ⟨h, ?_⟩
    simp [hg, hfind, CreateTopic, hh, database.CreateTopic, hi]
  obtain ⟨h, hdb, heff, htid⟩ := hcreate
  refine ⟨h, h1, ?_, ?_, ?_⟩
  · rw [h2, hres, htid, hdb]
    simp [UpdateTopicSubjectMessageID, hu]
  · rw [h3, heff]
    rfl
  · rw [hres, htid]

/-- Messages from `a` processed on a table that holds exactly one thread of `a`. -/
theorem processInbound_hits (conf : Config) (a : String)
    (inbound : List (World × imap.Message)) :
    ∀ (db : List Topic) (t : Topic), db.filter (isThreadOf a) = [t] →
      (∀ x ∈ inbound, SentFrom a x.2) → (∀ x ∈ inbound, x.1.Succeeds) →
      (processInbound conf db inbound).panicked = false ∧
      (processInbound conf db inbound).db.length = db.length ∧
      (processInbound conf db inbound).effects.filter isCreateForumTopic = [] ∧
      ∃ t1, (processInbound conf db inbound).db.filter (isThreadOf a) = [t1] ∧
        (inbound = [] → t1 = t) ∧
        (∀ x, inbound.getLast? = some x → ∃ env, x.2.Envelope = some env ∧
          t1.Subject = some env.Subject ∧ t1.MessageID = some env.MessageId) := by
  induction inbound with
  | nil =>
    intro db t hf _ _
    exact ⟨rfl, rfl, rfl, t, hf, fun _ => rfl, fun x hx => by simp at hx⟩
  | cons x rest ih =>
    intro db t hf hfrom hok
    obtain ⟨w, msg⟩ := x
    obtain ⟨env, henv, ha⟩ := hfrom (w, msg) (List.mem_cons_self _ _)
    obtain ⟨hg, _, hu, _⟩ := hok (w, msg) (List.mem_cons_self _ _)
    obtain ⟨hp, hdb, hcr, _⟩ := EmailCallback_hit conf w db msg a t env henv ha hg hu
      (find_of_filter_singleton _ db t hf)
    have hf1 : (EmailCallback conf w db msg).db.filter (isThreadOf a)
        = [refreshRow t.TopicID env.Subject env.MessageId t] := by
      rw [hdb, filter_refresh, hf]
      rfl
    obtain ⟨ip, il, ic, t1, it1, _, ilast⟩ := ih (EmailCallback conf w db msg).db _ hf1
      (fun y hy => hfrom y (List.mem_cons_of_mem _ hy))
      (fun y hy => hok y (List.mem_cons_of_mem _ hy))
    have hrun := processInbound_cons conf db w msg rest hp
    rw [hrun]
    refine ⟨ip, ?_, ?_, t1, it1, fun h => by simp at h, ?_⟩
    · show (processInbound conf (EmailCallback conf w db msg).db rest).db.length = db.length
      rw [il, hdb, List.length_map]
    · show ((EmailCallback conf w db msg).effects ++
        (processInbound conf (EmailCallback conf w db msg).db rest).effects).filter
          isCreateForumTopic = []
      rw [List.filter_append, hcr, ic]
      rfl
    · intro y hy
      cases rest with
      | nil =>
        simp only [List.getLast?_singleton, Option.some.injEq] at hy
        subst hy
        have ht1 : t1 = refreshRow t.TopicID env.Subject env.MessageId t := by
          have h0 : processInbound conf (EmailCallback conf w db msg).db [] =
              { db := (EmailCallback conf w db msg).db, effects := [], panicked := false,
                hung := false } := rfl
          rw [h0] at it1
          simp only at it1
          rw [hf1] at it1
          exact ((List.cons.inj it1).1).symm
        refine ⟨env, henv, ?_, ?_⟩ <;> simp [ht1, refreshRow]
      | cons z zs =>
        rw [List.getLast?_cons_cons] at hy
        exact ilast y hy

theorem preserved_refl (t : Topic) : Preserved t t :=
  ⟨rfl, rfl, rfl, rfl, rfl, id, id⟩

theorem preserved_trans {t t1 t2 : Topic} (h1 : Preserved t t1) (h2 : Preserved t1 t2) :
    Preserved t t2 :=
  ⟨h2.1.trans h1.1, h2.2.1.trans h1.2.1, h2.2.2.1.trans h1.2.2.1,
   h2.2.2.2.1.trans h1.2.2.2.1, h2.2.2.2.2.1.trans h1.2.2.2.2.1,
   fun h => h2.2.2.2.2.2.1 (h1.2.2.2.2.2.1 h), fun h => h2.2.2.2.2.2.2 (h1.2.2.2.2.2.2 h)⟩

theorem forall2_preserved_refl (db : List Topic) : List.Forall₂ Preserved db db :=
  List.forall₂_same.mpr (fun t _ => preserved_refl t)

theorem forall2_preserved_refresh (h : Int) (s m : String) (db : List Topic) :
    List.Forall₂ Preserved db (db.map (refreshRow h s m)) := by
  rw [List.forall₂_map_right_iff]
  exact List.forall₂_same.mpr (fun t _ => refreshRow_preserved h s m t)

theorem forall2_preserved_trans {l1 l2 l3 : List Topic} (h1 : List.Forall₂ Preserved l1 l2)
    (h2 : List.Forall₂ Preserved l2 l3) : List.Forall₂ Preserved l1 l3 := by
  induction h1 generalizing l3 with
  | nil => cases h2; exact List.Forall₂.nil
  | cons hab _ ih =>
    cases h2 with
    | cons hbc hrest => exact List.Forall₂.cons (preserved_trans hab hbc) (ih hrest)

/-- The table after `UpdateTopicSubjectMessageID`, whatever the driver does. -/
theorem update_cases (db : List Topic) (fault : Option String) (h : Int) (s m : String) :
    (UpdateTopicSubjectMessageID db fault h s m).1 = db ∨
    fault = none ∧ (UpdateTopicSubjectMessageID db fault h s m).1 = db.map (refreshRow h s m) := by
  cases fault with
  | some e => exact Or.inl rfl
  | none => exact Or.inr ⟨rfl, rfl⟩

/-- C4. On a table without a thread for `(email, a)`, processing a non-empty list of
messages sent from `a` one at a time, all collaborator calls succeeding, ends without panic
with one more row, exactly one call of `Bot.CreateForumTopic`, and exactly one thread of
type `email` and target `a`, whose subject and message reference are those of the last
message of the list. -/
theorem one_thread_per_sender (conf : Config) (db : List Topic) (a : String)
    (inbound : List (World × imap.Message)) (hne : inbound ≠ [])
    (hnone : ∀ t ∈ db, ¬ (t.Typ = TopicTypeEmail ∧ t.Target = a))
    (hfrom : ∀ x ∈ inbound, SentFrom a x.2) (hok : ∀ x ∈ inbound, x.1.Succeeds) :
    (processInbound conf db inbound).panicked = false ∧
    (processInbound conf db inbound).db.length = db.length + 1 ∧
    ((processInbound conf db inbound).effects.filter isCreateForumTopic).length = 1 ∧
    ∃ t env, (processInbound conf db inbound).db.filter (isThreadOf a) = [t] ∧
      (inbound.getLast hne).2.Envelope = some env ∧
      t.Subject = some env.Subject ∧ t.MessageID = some env.MessageId := by
  cases inbound with
  | nil => exact absurd rfl hne
  | cons x rest =>
    obtain ⟨w, msg⟩ := x
    obtain ⟨env, henv, ha⟩ := hfrom (w, msg) (List.mem_cons_self _ _)
    have hw := hok (w, msg) (List.mem_cons_self _ _)
    have hfilter : db.filter (isThreadOf a) = [] := by
      rw [List.filter_eq_nil_iff]
      intro t ht hc
      exact hnone t ht ((isThreadOf_iff a t).mp hc)
    have hfind : db.find? (isThreadOf a) = none := by
      rw [List.find?_eq_none]
      intro t ht hc
      exact hnone t ht ((isThreadOf_iff a t).mp hc)
    obtain ⟨h, hp, hdb, hcr, _⟩ := EmailCallback_miss conf w db msg a env henv ha hw hfind
    have hrow : refreshRow h env.Subject env.MessageId
        { ID := w.insertID, Typ := TopicTypeEmail, Target := a, TopicID := h,
          Subject := some env.Subject, MessageID := some env.MessageId, CreatedAt := w.now }
        = { ID := w.insertID, Typ := TopicTypeEmail, Target := a, TopicID := h,
            Subject := some env.Subject, MessageID := some env.MessageId,
            CreatedAt := w.now } := by
      simp [refreshRow]
    have hf1 : (EmailCallback conf w db msg).db.filter (isThreadOf a)
        = [{ ID := w.insertID, Typ := TopicTypeEmail, Target := a, TopicID := h,
             Subject := some env.Subject, MessageID := some env.MessageId,
             CreatedAt := w.now }] := by
      rw [hdb, filter_refresh, List.filter_append, hfilter, List.nil_append,
        List.filter_cons_of_pos (by simp [isThreadOf]), List.filter_nil, List.map_singleton,
        hrow]
    obtain ⟨ip, il, ic, t1, it1, iempty, ilast⟩ := processInbound_hits conf a rest
      (EmailCallback conf w db msg).db _ hf1
      (fun y hy => hfrom y (List.mem_cons_of_mem _ hy))
      (fun y hy => hok y (List.mem_cons_of_mem _ hy))
    have hrun := processInbound_cons conf db w msg rest hp
    rw [hrun]
    refine ⟨ip, ?_, ?_, t1, ?_⟩
    · show (processInbound conf (EmailCallback conf w db msg).db rest).db.length = db.length + 1
      rw [il, hdb, List.length_map, List.length_append]
      rfl
    · show (((EmailCallback conf w db msg).effects ++
        (processInbound conf (EmailCallback conf w db msg).db rest).effects).filter
          isCreateForumTopic).length = 1
      rw [List.filter_append, ic, List.append_nil, hcr]
    · cases rest with
      | nil =>
        have ht1 := iempty rfl
        exact ⟨env, it1, henv, by rw [ht1], by rw [ht1]⟩
      | cons z zs =>
        obtain ⟨env1, he1, hs1, hm1⟩ := ilast ((z :: zs).getLast (List.cons_ne_nil _ _))
          (List.getLast?_eq_getLast _ _)
        refine ⟨env1, it1, ?_, hs1, hm1⟩
        rw [List.getLast_cons_cons]
        exact he1

/-- One run of `EmailCallback`, whatever the collaborators answer, for a message from `a`
on a table in which the lookup of `a` finds `t1`. -/
theorem EmailCallback_present (conf : Config) (w : World) (db : List Topic)
    (msg : imap.Message) (a : String) (t1 : Topic) (env : imap.Envelope)
    (henv : msg.Envelope = some env) (ha : (EmailCallback.sender env).2 = a)
    (hfind : db.find? (isThreadOf a) = some t1) :
    (EmailCallback conf w db msg).panicked = false ∧
    ((EmailCallback conf w db msg).db = db ∨
      (EmailCallback conf w db msg).db
        = db.map (refreshRow t1.TopicID env.Subject env.MessageId)) ∧
    (EmailCallback conf w db msg).effects.filter isCreateForumTopic = [] ∧
    (w.getFault = none → resolvedHandle conf db (w, msg) = some t1.TopicID) := by
  obtain ⟨h1, h2, h3, _⟩ := EmailCallback_eq conf w db msg env henv
  have hres : resolvedHandle conf db (w, msg)
      = (resolveOrCreate conf w db env (EmailCallback.sender env).1 a).topicId := by
    simp only [resolvedHandle, henv, ha]
  rw [ha] at h2 h3
  rcases resolveOrCreate_cases conf w db env (EmailCallback.sender env).1 a with
    ⟨hdb, heff, ⟨htid, hnone⟩ | ⟨t0, _, hf0, htid⟩⟩ | ⟨_, _, _, hnone⟩ | ⟨h, _, hnone, _⟩
  · rw [heff] at h3
    rw [hres, htid, hdb] at h2
    refine ⟨h1, Or.inl h2, h3, ?_⟩
    intro hg
    rw [hnone hg] at hfind
    exact Option.noConfusion hfind
  · rw [hfind] at hf0
    have ht0 : t1 = t0 := Option.some.inj hf0
    subst ht0
    rw [heff] at h3
    rw [hres, htid, hdb] at h2
    refine ⟨h1, ?_, h3, fun _ => by rw [hres, htid]⟩
    rcases update_cases db w.updateFault t1.TopicID env.Subject env.MessageId with hu | ⟨_, hu⟩
    · exact Or.inl (by rw [h2]; exact hu)
    · exact Or.inr (by rw [h2]; exact hu)
  · rw [hnone] at hfind
    exact Option.noConfusion hfind
  · rw [hnone] at hfind
    exact Option.noConfusion hfind

/-- Messages from `a`, whatever the collaborators answer, processed on a table in which
the lookup of `a` finds a row with handle `handle`. -/
theorem processInbound_present (conf : Config) (a : String) (handle : Int)
    (inbound : List (World × imap.Message)) :
    ∀ db : List Topic,
      (∃ t1, db.find? (isThreadOf a) = some t1 ∧ t1.TopicID = handle) →
      (∀ x ∈ inbound, SentFrom a x.2) →
      (processInbound conf db inbound).panicked = false ∧
      List.Forall₂ Preserved db (processInbound conf db inbound).db ∧
      (processInbound conf db inbound).effects.filter isCreateForumTopic = [] ∧
      (∀ pre x post, inbound = pre ++ x :: post → x.1.getFault = none →
        resolvedHandle conf (processInbound conf db pre).db x = some handle) := by
  induction inbound with
  | nil =>
    intro db _ _
    refine ⟨rfl, forall2_preserved_refl db, rfl, ?_⟩
    intro pre x post h
    exact absurd h (by simp)
  | cons y rest ih =>
    intro db hinv hfrom
    obtain ⟨t1, hfind, hid⟩ := hinv
    obtain ⟨w, msg⟩ := y
    obtain ⟨env, henv, ha⟩ := hfrom (w, msg) (List.mem_cons_self _ _)
    obtain ⟨hp, hdb, hcr, hres⟩ := EmailCallback_present conf w db msg a t1 env henv ha hfind
    have hinv1 : ∃ t2, (EmailCallback conf w db msg).db.find? (isThreadOf a) = some t2 ∧
        t2.TopicID = handle := by
      rcases hdb with hdb | hdb
      · rw [hdb]
        exact ⟨t1, hfind, hid⟩
      · rw [hdb, find_refresh, hfind]
        exact ⟨_, rfl, (refreshRow_preserved _ _ _ t1).2.2.2.1.trans hid⟩
    have hpres1 : List.Forall₂ Preserved db (EmailCallback conf w db msg).db := by
      rcases hdb with hdb | hdb
      · rw [hdb]
        exact forall2_preserved_refl db
      · rw [hdb]
        exact forall2_preserved_refresh _ _ _ db
    obtain ⟨ip, ipres, ic, isplit⟩ := ih (EmailCallback conf w db msg).db hinv1
      (fun z hz => hfrom z (List.mem_cons_of_mem _ hz))
    have hrun := fun l => processInbound_cons conf db w msg l hp
    rw [hrun]
    refine ⟨ip, forall2_preserved_trans hpres1 ipres, ?_, ?_⟩
    · show ((EmailCallback conf w db msg).effects ++
        (processInbound conf (EmailCallback conf w db msg).db rest).effects).filter
          isCreateForumTopic = []
      rw [List.filter_append, hcr, ic]
      rfl
    · intro pre x post hsplit hg
      cases pre with
      | nil =>
        rw [List.nil_append] at hsplit
        have hx : x = (w, msg) := (List.cons.inj hsplit).1.symm
        subst hx
        rw [← hid]
        exact hres hg
      | cons p pre1 =>
        rw [List.cons_append] at hsplit
        obtain ⟨hp1, hrest⟩ := List.cons.inj hsplit
        subst hp1
        rw [hrun]
        exact isplit pre1 x post hrest hg

/-- C5. On a table that holds a thread `t` of type `email` and target `a`, the lookup finds
a thread `t1` of type `email` and target `a` (`t` itself when the table satisfies the
uniqueness invariant of the data model), and: the lookup-then-create step for `a` leaves
the table as it is and calls nothing, whatever the collaborators answer, and resolves to
`t1.TopicID` whenever the lookup itself does not fail; and however many messages from `a`
are processed one after the other, no call of `Bot.CreateForumTopic` is made, the rows stay
the same in number with their key, type, target and handle, and every lookup-then-create
step resolves to `t1.TopicID`. -/
theorem resolveOrCreate_idempotent (conf : Config) (db : List Topic) (t : Topic) (a : String)
    (ht : t ∈ db) (hty : t.Typ = TopicTypeEmail) (hta : t.Target = a) :
    ∃ t1, t1 ∈ db ∧ t1.Typ = TopicTypeEmail ∧ t1.Target = a ∧ (KeyUnique db → t1 = t) ∧
    (∀ (w : World) (env : imap.Envelope) (name : String),
        (resolveOrCreate conf w db env name a).db = db ∧
        (resolveOrCreate conf w db env name a).effects = [] ∧
        (w.getFault = none →
          (resolveOrCreate conf w db env name a).topicId = some t1.TopicID)) ∧
    (∀ inbound : List (World × imap.Message), (∀ x ∈ inbound, SentFrom a x.2) →
        (processInbound conf db inbound).panicked = false ∧
        (processInbound conf db inbound).db.length = db.length ∧
        List.Forall₂ Preserved db (processInbound conf db inbound).db ∧
        (processInbound conf db inbound).effects.filter isCreateForumTopic = [] ∧
        (∀ pre x post, inbound = pre ++ x :: post → x.1.getFault = none →
          resolvedHandle conf (processInbound conf db pre).db x = some t1.TopicID)) := by
  have hfind : ∃ t1, db.find? (isThreadOf a) = some t1 := by
    cases hf : db.find? (isThreadOf a) with
    | none =>
      rw [List.find?_eq_none] at hf
      exact absurd ((isThreadOf_iff a t).mpr ⟨hty, hta⟩) (hf t ht)
    | some t1 => exact ⟨t1, rfl⟩
  obtain ⟨t1, hf1⟩ := hfind
  have hk := (isThreadOf_iff a t1).mp (List.find?_some hf1)
  have hmem := List.mem_of_find?_eq_some hf1
  refine ⟨t1, hmem, hk.1, hk.2, ?_, ?_, ?_⟩
  · intro huniq
    by_contra he
    have hsym : Symmetric (fun x y : Topic => ¬ (x.Typ = y.Typ ∧ x.Target = y.Target)) :=
      fun x y hxy hyx => hxy ⟨hyx.1.symm, hyx.2.symm⟩
    have := List.Pairwise.forall hsym huniq hmem ht he
    exact this ⟨hk.1.trans hty.symm, hk.2.trans hta.symm⟩
  · intro w env name
    rcases resolveOrCreate_cases conf w db env name a with
      ⟨hdb, heff, ⟨_, hnone⟩ | ⟨t0, _, hf0, htid⟩⟩ | ⟨_, _, _, hnone⟩ | ⟨h, _, hnone, _⟩
    · refine ⟨hdb, heff, fun hg => ?_⟩
      rw [hnone hg] at hf1
      exact Option.noConfusion hf1
    · rw [hf1] at hf0
      have ht0 : t1 = t0 := Option.some.inj hf0
      subst ht0
      exact ⟨hdb, heff, fun _ => htid⟩
    · rw [hnone] at hf1
      exact Option.noConfusion hf1
    · rw [hnone] at hf1
      exact Option.noConfusion hf1
  · intro inbound hfrom
    obtain ⟨hp, hpres, hcr, hsplit⟩ := processInbound_present conf a t1.TopicID inbound db
      ⟨t1, hf1, rfl⟩ hfrom
    exact ⟨hp, (List.Forall₂.length_eq hpres).symm, hpres, hcr, hsplit⟩

/-- C5 at a concrete table: three messages from `a@x.com`, the chat platform ready to hand
out new handles. -/
theorem resolveOrCreate_idempotent_witness :
    (processInbound exampleConf exampleTable
      [(okWorld 90, mailFromA 12 "Still stuck" "<m12@x.com>"),
       (okWorld 91, mailFromA 13 "Any news" "<m13@x.com>"),
       (updateFailsWorld 92, mailFromA 14 "Hello" "<m14@x.com>")]).db.length = 2 ∧
    (processInbound exampleConf exampleTable
      [(okWorld 90, mailFromA 12 "Still stuck" "<m12@x.com>"),
       (okWorld 91, mailFromA 13 "Any news" "<m13@x.com>"),
       (updateFailsWorld 92, mailFromA 14 "Hello" "<m14@x.com>")]).effects.filter
        isCreateForumTopic = [] :=
  match resolveOrCreate_idempotent exampleConf exampleTable
      { ID := "2", Typ := TopicTypeEmail, Target := "a@x.com", TopicID := 77,
        Subject := some "Help", MessageID := some "<m11@x.com>", CreatedAt := 2 }
      "a@x.com" (by decide) rfl rfl with
  | ⟨_, _, _, _, _, _, hrun⟩ =>
    have h := hrun
      [(okWorld 90, mailFromA 12 "Still stuck" "<m12@x.com>"),
       (okWorld 91, mailFromA 13 "Any news" "<m13@x.com>"),
       (updateFailsWorld 92, mailFromA 14 "Hello" "<m14@x.com>")]
      (by
        intro x hx
        simp only [List.mem_cons, List.mem_singleton, List.not_mem_nil, or_false] at hx
        rcases hx with h | h | h <;> subst h <;> exact ⟨_, rfl, by decide⟩)
    ⟨h.2.1, h.2.2.2.1⟩

/-- C6. When no row of the table has the thread handle of a chat message, the lookup by
handle reports `sql.ErrNoRows`, and the handler, whatever the driver does, sends no mail,
makes no other call, leaves the table as it is, and does not panic when the message has a
sender. -/
theorem handler_unknown_thread (conf : Config) (TelegramName : String → String → String)
    (db : List Topic) (update : models.Update) (message : models.Message)
    (hmsg : update.Message = some message)
    (hunknown : ∀ t ∈ db, t.TopicID ≠ message.MessageThreadID) :
    GetTopicByTopicID db none message.MessageThreadID = .error Error.ErrNoRows ∧
    (∀ getFault : Option String,
      (handler conf TelegramName db getFault update).effects = [] ∧
      (handler conf TelegramName db getFault update).db = db ∧
      (message.From ≠ none →
        (handler conf TelegramName db getFault update).panicked = false)) := by
  have hfind : db.find? (fun t => t.TopicID == message.MessageThreadID) = none := by
    rw [List.find?_eq_none]
    intro t ht hc
    exact hunknown t ht (by simpa using hc)
  have hget : ∀ getFault, ∃ e, GetTopicByTopicID db getFault message.MessageThreadID
      = .error e := by
    intro getFault
    cases getFault with
    | some e => exact ⟨_, rfl⟩
    | none => exact ⟨Error.ErrNoRows, by simp [GetTopicByTopicID, Get, hfind]⟩
  constructor
  · simp [GetTopicByTopicID, Get, hfind]
  · intro getFault
    obtain ⟨e, he⟩ := hget getFault
    unfold handler
    simp only [hmsg]
    by_cases hc : message.ChatID = conf.ChatID ∧ message.IsTopicMessage = true
    · simp only [hc, and_self, if_true]
      cases hfrom : message.From with
      | none => exact ⟨rfl, rfl, fun h => absurd rfl h⟩
      | some sender =>
        simp only
        by_cases hb : sender.IsBot = true
        · simp [hb]
        · simp [hb, he]
    · simp [hc]

/-- C6 at a concrete table and chat message in topic 123. -/
theorem handler_unknown_thread_witness :
    (handler exampleConf exampleName exampleTable none (chatUpdate 123)).effects = [] ∧
    (handler exampleConf exampleName exampleTable none (chatUpdate 123)).db = exampleTable :=
  have h := (handler_unknown_thread exampleConf exampleName exampleTable (chatUpdate 123)
    _ rfl (by decide)).2 none
  ⟨h.1, h.2.1⟩

theorem processInbound_no_panic (conf : Config) (l : List (World × imap.Message)) :
    ∀ db : List Topic, (∀ x ∈ l, x.2.Envelope ≠ none) →
      (processInbound conf db l).panicked = false := by
  induction l with
  | nil => intro db _; rfl
  | cons x rest ih =>
    intro db henv
    obtain ⟨w, msg⟩ := x
    have hx := henv (w, msg) (List.mem_cons_self _ _)
    cases he : msg.Envelope with
    | none => exact absurd he hx
    | some env =>
      have hp := (EmailCallback_eq conf w db msg env he).1
      rw [processInbound_cons conf db w msg rest hp]
      exact ih _ (fun y hy => henv y (List.mem_cons_of_mem _ hy))

theorem processInbound_append_db (conf : Config) (l1 l2 : List (World × imap.Message)) :
    ∀ db : List Topic, (processInbound conf db l1).panicked = false →
      (processInbound conf db (l1 ++ l2)).db
        = (processInbound conf (processInbound conf db l1).db l2).db := by
  induction l1 with
  | nil => intro db _; rfl
  | cons x rest ih =>
    intro db hp
    obtain ⟨w, msg⟩ := x
    have hp1 : (EmailCallback conf w db msg).panicked = false := by
      cases hc : (EmailCallback conf w db msg).panicked with
      | false => rfl
      | true =>
        have : processInbound conf db ((w, msg) :: rest) = EmailCallback conf w db msg := by
          simp [processInbound, hc]
        rw [this, hc] at hp
        exact Bool.noConfusion hp
    rw [List.cons_append, processInbound_cons conf db w msg _ hp1]
    rw [processInbound_cons conf db w msg _ hp1] at hp
    rw [processInbound_cons conf db w msg _ hp1]
    exact ih _ hp

/-- One run of `EmailCallback`, whatever the message and the collaborators: the rows of
the table are kept in place with their key, type, target and handle and with set fields
still set; at the end there may be new rows, whose subject and message reference are set. -/
theorem EmailCallback_preserves (conf : Config) (w : World) (db : List Topic)
    (msg : imap.Message) :
    ∃ kept added, (EmailCallback conf w db msg).db = kept ++ added ∧
      List.Forall₂ Preserved db kept ∧
      (∀ t ∈ added, t.Subject ≠ none ∧ t.MessageID ≠ none) := by
  cases he : msg.Envelope with
  | none =>
    refine ⟨db, [], ?_, forall2_preserved_refl db, fun t ht => absurd ht (List.not_mem_nil t)⟩
    simp [EmailCallback, he]
  | some env =>
    obtain ⟨_, h2, _, _⟩ := EmailCallback_eq conf w db msg env he
    have hres : resolvedHandle conf db (w, msg)
        = (resolveOrCreate conf w db env (EmailCallback.sender env).1
            (EmailCallback.sender env).2).topicId := by
      simp only [resolvedHandle, he]
    rw [hres] at h2
    rcases resolveOrCreate_cases conf w db env (EmailCallback.sender env).1
        (EmailCallback.sender env).2 with
      ⟨hdb, _, ⟨htid, _⟩ | ⟨t0, _, _, htid⟩⟩ | ⟨hdb, htid, _, _⟩ | ⟨h, _, _, _, hdb, _, htid⟩
    · rw [htid, hdb] at h2
      exact ⟨db, [], by rw [h2, List.append_nil], forall2_preserved_refl db,
        fun t ht => absurd ht (List.not_mem_nil t)⟩
    · rw [htid, hdb] at h2
      rcases update_cases db w.updateFault t0.TopicID env.Subject env.MessageId with
        hu | ⟨_, hu⟩
      · exact ⟨db, [], by rw [h2, List.append_nil]; exact hu, forall2_preserved_refl db,
          fun t ht => absurd ht (List.not_mem_nil t)⟩
      · exact ⟨_, [], by rw [h2, List.append_nil]; exact hu,
          forall2_preserved_refresh _ _ _ db, fun t ht => absurd ht (List.not_mem_nil t)⟩
    · rw [htid, hdb] at h2
      exact ⟨db, [], by rw [h2, List.append_nil], forall2_preserved_refl db,
        fun t ht => absurd ht (List.not_mem_nil t)⟩
    · rw [htid] at h2
      have hupd := update_cases (resolveOrCreate conf w db env (EmailCallback.sender env).1
        (EmailCallback.sender env).2).db w.updateFault h env.Subject env.MessageId
      rw [hdb] at h2 hupd
      simp only at h2
      rcases hupd with hu | ⟨_, hu⟩
      · refine ⟨db, _, by rw [h2]; exact hu, forall2_preserved_refl db, ?_⟩
        intro t ht
        rw [List.mem_singleton] at ht
        subst ht
        exact ⟨by simp, by simp⟩
      · refine ⟨db.map (refreshRow h env.Subject env.MessageId),
          List.map (refreshRow h env.Subject env.MessageId) [_],
          by rw [h2, hu, List.map_append], forall2_preserved_refresh _ _ _ db, ?_⟩
        intro t ht
        rw [List.map_singleton, List.mem_singleton] at ht
        subst ht
        exact ⟨by simp [refreshRow], by simp [refreshRow]⟩

theorem forall2_preserved_set {l1 l2 : List Topic} (h : List.Forall₂ Preserved l1 l2)
    (hset : ∀ t ∈ l1, t.Subject ≠ none ∧ t.MessageID ≠ none) :
    ∀ t ∈ l2, t.Subject ≠ none ∧ t.MessageID ≠ none := by
  induction h with
  | nil => intro t ht; exact absurd ht (List.not_mem_nil t)
  | cons hab _ ih =>
    intro t ht
    rcases List.mem_cons.mp ht with rfl | hm
    · have h0 := hset _ (List.mem_cons_self _ _)
      exact ⟨hab.2.2.2.2.2.1 h0.1, hab.2.2.2.2.2.2 h0.2⟩
    · exact ih (fun u hu => hset u (List.mem_cons_of_mem _ hu)) t hm

/-- Whatever is processed, set fields stay set. -/
theorem processInbound_set (conf : Config) (l : List (World × imap.Message)) :
    ∀ db : List Topic, (∀ t ∈ db, t.Subject ≠ none ∧ t.MessageID ≠ none) →
      ∀ t ∈ (processInbound conf db l).db, t.Subject ≠ none ∧ t.MessageID ≠ none := by
  induction l with
  | nil => intro db hset; exact hset
  | cons x rest ih =>
    intro db hset
    obtain ⟨w, msg⟩ := x
    obtain ⟨kept, added, hdb, hkept, hadded⟩ := EmailCallback_preserves conf w db msg
    have hset1 : ∀ t ∈ (EmailCallback conf w db msg).db, t.Subject ≠ none ∧ t.MessageID ≠ none := by
      intro t ht
      rw [hdb, List.mem_append] at ht
      rcases ht with ht | ht
      · exact forall2_preserved_set hkept hset t ht
      · exact hadded t ht
    cases hc : (EmailCallback conf w db msg).panicked with
    | true =>
      have : processInbound conf db ((w, msg) :: rest) = EmailCallback conf w db msg := by
        simp [processInbound, hc]
      rw [this]
      exact hset1
    | false =>
      rw [processInbound_cons conf db w msg rest hc]
      exact ih _ hset1

/-- On a table whose rows all have subject and message reference set, the handler does not
panic for a chat message that has a sender, and it leaves the table as it is. -/
theorem handler_defined (conf : Config) (TelegramName : String → String → String)
    (db : List Topic) (fault : Option String) (update : models.Update)
    (message : models.Message) (hset : ∀ t ∈ db, t.Subject ≠ none ∧ t.MessageID ≠ none)
    (hmsg : update.Message = some message) (hfrom : message.From ≠ none) :
    (handler conf TelegramName db fault update).panicked = false ∧
    (handler conf TelegramName db fault update).db = db := by
  unfold handler
  simp only [hmsg]
  by_cases hc : message.ChatID = conf.ChatID ∧ message.IsTopicMessage = true
  · simp only [hc, and_self, if_true]
    cases hf : message.From with
    | none => exact absurd hf hfrom
    | some sender =>
      simp only
      by_cases hb : sender.IsBot = true
      · simp [hb]
      · simp only [hb, if_false]
        cases hg : GetTopicByTopicID db fault message.MessageThreadID with
        | error e => exact ⟨rfl, rfl⟩
        | ok topic =>
          have hmem : topic ∈ db := by
            unfold GetTopicByTopicID Get at hg
            cases fault with
            | some e => simp at hg
            | none =>
              simp only at hg
              cases hfind : db.find? (fun t => t.TopicID == message.MessageThreadID) with
              | none => rw [hfind] at hg; simp at hg
              | some t0 =>
                rw [hfind] at hg
                have : t0 = topic := Except.ok.inj hg
                rw [← this]
                exact List.mem_of_find?_eq_some hfind
          obtain ⟨hs, hm⟩ := hset topic hmem
          simp only
          by_cases hty : topic.Typ = TopicTypeEmail
          · simp only [hty, if_true]
            cases hsub : topic.Subject with
            | none => exact absurd hsub hs
            | some subject =>
              cases hmid : topic.MessageID with
              | none => exact absurd hmid hm
              | some mid => exact ⟨rfl, rfl⟩
          · simp [hty]
  · simp [hc]

/-- A row that the next message is not resolved to keeps its last resolved message. -/
theorem lastResolved_extend (conf : Config) (init : List (World × imap.Message))
    (x : World × imap.Message) (t : Topic) (h : LastResolved conf init t)
    (hne : resolvedHandle conf (processInbound conf [] init).db x ≠ some t.TopicID) :
    LastResolved conf (init ++ [x]) t := by
  obtain ⟨pre, x0, post, env, hsplit, henv, hres, hs, hm, hlater⟩ := h
  refine ⟨pre, x0, post ++ [x], env, ?_, henv, hres, hs, hm, ?_⟩
  · rw [hsplit]
    simp
  · intro mid y post1 hpost
    rcases List.eq_nil_or_concat post1 with hnil | ⟨p, z, hp⟩
    · subst hnil
      obtain ⟨h1, h2⟩ := List.append_inj' hpost rfl
      have hy : x = y := (List.cons.inj h2).1
      subst hy
      subst h1
      rw [← hsplit]
      exact hne
    · subst hp
      have hpost1 : post ++ [x] = (mid ++ y :: p) ++ [z] := by
        rw [hpost]
        simp
      obtain ⟨h1, _⟩ := List.append_inj' hpost1 rfl
      exact hlater mid y p h1

/-- When every refresh statement executes and every message has an envelope, each row of
the table reached from the empty table carries the subject and message reference of the
last message that was resolved to its handle. -/
theorem processInbound_lastResolved (conf : Config) (inbound : List (World × imap.Message)) :
    (∀ x ∈ inbound, x.1.updateFault = none ∧ x.2.Envelope ≠ none) →
      ∀ t ∈ (processInbound conf [] inbound).db, LastResolved conf inbound t := by
  induction inbound using List.reverseRecOn with
  | nil =>
    intro _ t ht
    exact absurd ht (List.not_mem_nil t)
  | append_singleton init x ih =>
    intro hall t ht
    have hinit : ∀ y ∈ init, y.1.updateFault = none ∧ y.2.Envelope ≠ none :=
      fun y hy => hall y (List.mem_append_left _ hy)
    have ih1 := ih hinit
    obtain ⟨w, msg⟩ := x
    have hu : w.updateFault = none :=
      (hall (w, msg) (List.mem_append_right _ (List.mem_singleton_self _))).1
    have hex : msg.Envelope ≠ none :=
      (hall (w, msg) (List.mem_append_right _ (List.mem_singleton_self _))).2
    have hno : (processInbound conf [] init).panicked = false :=
      processInbound_no_panic conf init [] (fun y hy => (hinit y hy).2)
    cases he : msg.Envelope with
    | none => exact absurd he hex
    | some env =>
      obtain ⟨hp, h2, _, _⟩ := EmailCallback_eq conf w (processInbound conf [] init).db msg env he
      have hdb : (processInbound conf [] (init ++ [(w, msg)])).db
          = (EmailCallback conf w (processInbound conf [] init).db msg).db := by
        rw [processInbound_append_db conf init [(w, msg)] [] hno,
          processInbound_cons conf _ w msg [] hp]
        rfl
      rw [hdb] at ht
      have hres : resolvedHandle conf (processInbound conf [] init).db (w, msg)
          = (resolveOrCreate conf w (processInbound conf [] init).db env
              (EmailCallback.sender env).1 (EmailCallback.sender env).2).topicId := by
        simp only [resolvedHandle, he]
      have hcases := resolveOrCreate_cases conf w (processInbound conf [] init).db env
        (EmailCallback.sender env).1 (EmailCallback.sender env).2
      cases hr : resolvedHandle conf (processInbound conf [] init).db (w, msg) with
      | none =>
        rw [hr] at h2
        simp only at h2
        have hsame : (EmailCallback conf w (processInbound conf [] init).db msg).db
            = (processInbound conf [] init).db := by
          rcases hcases with ⟨hd, _, _⟩ | ⟨hd, _, _, _⟩ | ⟨h, _, _, _, _, _, htid⟩
          · rw [h2, hd]
          · rw [h2, hd]
          · rw [hres, htid] at hr
            exact Option.noConfusion hr
        rw [hsame] at ht
        exact lastResolved_extend conf init (w, msg) t (ih1 t ht)
          (by rw [hr]; exact fun h => Option.noConfusion h)
      | some h =>
        rw [hr] at h2
        simp only [UpdateTopicSubjectMessageID, hu] at h2
        rw [h2, List.mem_map] at ht
        obtain ⟨t0, ht0, hrow⟩ := ht
        by_cases hid : t0.TopicID = h
        · have hteq : t =
              { t0 with Subject := some env.Subject, MessageID := some env.MessageId } := by
            rw [← hrow]
            simp [refreshRow, hid]
          refine ⟨init, (w, msg), [], env, rfl, he, ?_, by rw [hteq], by rw [hteq], ?_⟩
          · rw [hr, hteq]
            exact congrArg some hid.symm
          · intro mid y post1 hpost
            exact absurd hpost (by simp)
        · have hteq : t = t0 := by
            rw [← hrow]
            simp [refreshRow, hid]
          subst hteq
          have hmem : t ∈ (processInbound conf [] init).db := by
            rcases hcases with ⟨hd, _, _⟩ | ⟨hd, _, _, _⟩ | ⟨h1, _, _, _, hd, _, htid⟩
            · rw [hd] at ht0; exact ht0
            · rw [hd] at ht0; exact ht0
            · rw [hd, List.mem_append, List.mem_singleton] at ht0
              rcases ht0 with hin | hnew
              · exact hin
              · exfalso
                rw [hres, htid] at hr
                have h1h : h1 = h := Option.some.inj hr
                apply hid
                rw [hnew]
                exact h1h
          exact lastResolved_extend conf init (w, msg) t (ih1 t hmem)
            (by rw [hr]; exact fun hc => hid (Option.some.inj hc).symm)

/-- C10. In every table reached from the empty table by processing inbound messages one at
a time, whatever the collaborators answer: every row has subject and message reference set;
when every refresh statement executes and every message carries an envelope, each row holds
the subject and message id of the message processed last among those resolved to its
handle; one run of `EmailCallback` and one refresh keep every row in place with its key,
type, target and handle and never unset a set field, new rows being appended with both
fields set; so the chat handler, which leaves the table as it is, never dereferences an
absent subject or message reference on such a table. -/
theorem metadata_set_and_current (conf : Config) (inbound : List (World × imap.Message)) :
    (∀ t ∈ (processInbound conf [] inbound).db, t.Subject ≠ none ∧ t.MessageID ≠ none) ∧
    ((∀ x ∈ inbound, x.1.updateFault = none ∧ x.2.Envelope ≠ none) →
      ∀ t ∈ (processInbound conf [] inbound).db, LastResolved conf inbound t) ∧
    (∀ (w : World) (db : List Topic) (msg : imap.Message),
      ∃ kept added, (EmailCallback conf w db msg).db = kept ++ added ∧
        List.Forall₂ Preserved db kept ∧
        (∀ t ∈ added, t.Subject ≠ none ∧ t.MessageID ≠ none)) ∧
    (∀ (db : List Topic) (fault : Option String) (topicID : Int) (subject messageID : String),
      List.Forall₂ Preserved db
        (UpdateTopicSubjectMessageID db fault topicID subject messageID).1) ∧
    (∀ (TelegramName : String → String → String) (fault : Option String)
        (update : models.Update) (message : models.Message),
      update.Message = some message → message.From ≠ none →
      (handler conf TelegramName (processInbound conf [] inbound).db fault update).panicked
        = false ∧
      (handler conf TelegramName (processInbound conf [] inbound).db fault update).db
        = (processInbound conf [] inbound).db) := by
  have hset := processInbound_set conf inbound []
    (fun t ht => absurd ht (List.not_mem_nil t))
  refine ⟨hset, processInbound_lastResolved conf inbound,
    fun w db msg => EmailCallback_preserves conf w db msg, ?_, ?_⟩
  · intro db fault topicID subject messageID
    rcases update_cases db fault topicID subject messageID with hu | ⟨_, hu⟩
    · rw [hu]
      exact forall2_preserved_refl db
    · rw [hu]
      exact forall2_preserved_refresh _ _ _ db
  · intro TelegramName fault update message hmsg hfrom
    exact handler_defined conf TelegramName _ fault update message hset hmsg hfrom

/-- C10 at a concrete run: two senders, three messages; then a chat reply in topic 77. -/
theorem metadata_set_and_current_witness :
    (∀ t ∈ (processInbound exampleConf []
        [(okWorld 77, mailFromA 11 "Help" "<m11@x.com>"),
         (okWorld 78, mailFromB 12 "Invoice" "<m12@y.org>"),
         (okWorld 79, mailFromA 13 "Still stuck" "<m13@x.com>")]).db,
      LastResolved exampleConf
        [(okWorld 77, mailFromA 11 "Help" "<m11@x.com>"),
         (okWorld 78, mailFromB 12 "Invoice" "<m12@y.org>"),
         (okWorld 79, mailFromA 13 "Still stuck" "<m13@x.com>")] t) ∧
    (handler exampleConf exampleName (processInbound exampleConf []
        [(okWorld 77, mailFromA 11 "Help" "<m11@x.com>"),
         (okWorld 78, mailFromB 12 "Invoice" "<m12@y.org>"),
         (okWorld 79, mailFromA 13 "Still stuck" "<m13@x.com>")]).db none
        (chatUpdate 77)).panicked = false :=
  have h := metadata_set_and_current exampleConf
    [(okWorld 77, mailFromA 11 "Help" "<m11@x.com>"),
     (okWorld 78, mailFromB 12 "Invoice" "<m12@y.org>"),
     (okWorld 79, mailFromA 13 "Still stuck" "<m13@x.com>")]
  ⟨h.2.1 (by
      intro x hx
      simp only [List.mem_cons, List.mem_singleton, List.not_mem_nil, or_false] at hx
      rcases hx with h | h | h <;> subst h <;> exact ⟨rfl, by decide⟩),
   (h.2.2.2.2 exampleName none (chatUpdate 77) _ rfl (by decide)).1⟩

/-- C4 at the scenario of the specification: messages 11 and 12, both from `a@x.com`, on an
empty table. -/
theorem one_thread_per_sender_witness :
    (processInbound exampleConf []
      [(okWorld 77, mailFromA 11 "Help" "<m11@x.com>"),
       (okWorld 78, mailFromA 12 "Still stuck" "<m12@x.com>")]).db
      = [{ ID := "row", Typ := TopicTypeEmail, Target := "a@x.com", TopicID := 77,
           Subject := some "Still stuck", MessageID := some "<m12@x.com>",
           CreatedAt := 1700000000 }] ∧
    ((processInbound exampleConf []
      [(okWorld 77, mailFromA 11 "Help" "<m11@x.com>"),
       (okWorld 78, mailFromA 12 "Still stuck" "<m12@x.com>")]).effects.filter
        isCreateForumTopic).length = 1 :=
  ⟨by decide,
   (one_thread_per_sender exampleConf [] "a@x.com"
      [(okWorld 77, mailFromA 11 "Help" "<m11@x.com>"),
       (okWorld 78, mailFromA 12 "Still stuck" "<m12@x.com>")]
      (List.cons_ne_nil _ _)
      (fun t ht => by simp at ht)
      (by
        intro x hx
        simp only [List.mem_cons, List.mem_singleton, List.not_mem_nil, or_false] at hx
        rcases hx with h | h <;> subst h <;> exact ⟨_, rfl, by decide⟩)
      (by
        intro x hx
        simp only [List.mem_cons, List.mem_singleton, List.not_mem_nil, or_false] at hx
        rcases hx with h | h <;> subst h <;>
          exact ⟨rfl, rfl, rfl, fun _ _ => ⟨_, rfl⟩⟩)).2.2.1⟩

end main

end TopicBot
